import Mathlib

/-!
Verification of the ntp-checker monitor (src/monitor.py) against its
natural-language specification.

The Python source is shallowly embedded: strings are Lean `String`s handled
at the level of their character lists, Python `int` is `ℤ`, Python `float`
values that flow through the monitor (clock offsets and thresholds) are
modelled exactly as `ℚ` (the code only parses decimal literals and compares
them, it never performs rounding arithmetic), Python exceptions are an
explicit `Except` layer, and the SSH subprocess boundary is a script of
outcomes consumed call by call.  The JSON decoding done by `json.loads` in
`parse_gpspipe_output` is an external library call and is modelled as an
explicit decode oracle `String → Option GpsObj`.
-/

set_option maxHeartbeats 1000000
set_option maxRecDepth 4096

namespace NtpChecker

/-! ## Character-level models of the Python string operations -/

/-- Split a character list at every character satisfying `p`; separators are
dropped and the (possibly empty) chunks between them are returned.  Every
split performed by the monitor is on a single character class, so this one
function models `str.split(sep)`, `str.split()` and `str.splitlines()`. -/
def splitOnP (p : Char → Bool) : List Char → List (List Char)
  | [] => [[]]
  | c :: cs =>
    match splitOnP p cs with
    | [] => [[]]
    | h :: t => if p c then [] :: h :: t else (c :: h) :: t

/-- Join chunks with a separator list; inverse of `splitOnP` on a single
character. -/
def joinWith (sep : List Char) : List (List Char) → List Char
  | [] => []
  | [x] => x
  | x :: y :: t => x ++ sep ++ joinWith sep (y :: t)

/-- Boolean infix test on character lists (models Python `in` on `str`). -/
def listInfix (n : List Char) : List Char → Bool
  | [] => n.isEmpty
  | c :: t => n.isPrefixOf (c :: t) || listInfix n t

/-- Python `needle in hay` for strings. -/
def pyIn (needle hay : String) : Bool := listInfix needle.data hay.data

/-- Python `s.startswith(p)`. -/
def pyStartsWith (s p : String) : Bool := p.data.isPrefixOf s.data

/-- Python `s.strip()`. -/
def pyStrip (s : String) : String :=
  ⟨((s.data.dropWhile Char.isWhitespace).reverse.dropWhile Char.isWhitespace).reverse⟩

/-- Python `text.splitlines()` restricted to LF newlines (the only line
terminator the monitored reports use): split on every newline and drop the
single empty chunk a trailing newline produces. -/
def pySplitLines (s : String) : List String :=
  let ps := (splitOnP (fun c => c == '\n') s.data).map (fun l => (⟨l⟩ : String))
  if ps.getLast? = some "" then ps.dropLast else ps

/-- Python `s.split(c, 1)`: at most one split, at the first occurrence. -/
def pySplit1 (c : Char) (s : String) : List String :=
  match splitOnP (fun d => d == c) s.data with
  | [] => [s]
  | [x] => [(⟨x⟩ : String)]
  | x :: rest => [(⟨x⟩ : String), (⟨joinWith [c] rest⟩ : String)]

/-- Python `s.split()` with no argument: split on whitespace runs, dropping
empty chunks. -/
def pySplitWs (s : String) : List String :=
  ((splitOnP Char.isWhitespace s.data).filter (fun l => !l.isEmpty)).map
    (fun l => (⟨l⟩ : String))

/-- Python `' | '.join(parts)` and friends. -/
def pyJoin (sep : String) : List String → String
  | [] => ""
  | [x] => x
  | x :: y :: t => x ++ sep ++ pyJoin sep (y :: t)

/-- `_head` from the source: the first three non-blank lines joined by ' / '. -/
def pyHead (text : String) : String :=
  pyJoin " / " (((pySplitLines text).filter (fun l => pyStrip l ≠ "")).take 3)

/-! ## Decimal numbers: models of `int(...)`, `float(...)` and `str(...)` -/

/-- The character of a decimal digit. -/
def digitChar (d : ℕ) : Char := Char.ofNat (48 + d)

/-- The value of a decimal digit character. -/
def digitVal (c : Char) : ℕ := c.toNat - 48

/-- Little-endian digit characters of `n`, with explicit fuel so that the
recursion is structural (the fuel `n` itself always suffices). -/
def natDigitsAux : ℕ → ℕ → List Char
  | 0, _ => []
  | fuel + 1, n => if n = 0 then [] else digitChar (n % 10) :: natDigitsAux fuel (n / 10)

/-- Decimal rendering of a natural number. -/
def natDecimal (n : ℕ) : String :=
  if n = 0 then "0" else ⟨(natDigitsAux n n).reverse⟩

/-- Decimal rendering of an integer (Python `str` on `int`). -/
def intDecimal (i : ℤ) : String :=
  if i < 0 then "-" ++ natDecimal i.natAbs else natDecimal i.natAbs

/-- Value of a big-endian digit-character list. -/
def digitsVal (cs : List Char) : ℕ :=
  cs.foldl (fun a c => 10 * a + digitVal c) 0

/-- Value of a little-endian digit-character list. -/
def digitsValLE : List Char → ℕ
  | [] => 0
  | c :: cs => digitVal c + 10 * digitsValLE cs

/-- Parse a non-empty all-digit character list. -/
def pyParseNat? (cs : List Char) : Option ℕ :=
  if !cs.isEmpty && cs.all Char.isDigit then some (digitsVal cs) else none

/-- Models Python `int(s)` on already-stripped input: an optional sign
followed by decimal digits (underscores and unicode digits are outside the
modelled fragment). -/
def pyInt? (s : String) : Option ℤ :=
  match s.data with
  | [] => none
  | c :: cs =>
    if c = '-' then (pyParseNat? cs).map (fun n => -(n : ℤ))
    else if c = '+' then (pyParseNat? cs).map (fun n => (n : ℤ))
    else (pyParseNat? (c :: cs)).map (fun n => (n : ℤ))

/-- A natural number as a rational, through the kernel-computable
constructor `mkRat` (the library's cast is not kernel-reducible). -/
def ratOfNat (n : ℕ) : ℚ := mkRat (Int.ofNat n) 1

/-- Exact rational addition, through `mkRat`. -/
def ratAdd (a b : ℚ) : ℚ := mkRat (a.num * b.den + b.num * a.den) (a.den * b.den)

/-- Exact rational multiplication, through `mkRat`. -/
def ratMul (a b : ℚ) : ℚ := mkRat (a.num * b.num) (a.den * b.den)

/-- Exact division of a rational by a natural number, through `mkRat`. -/
def ratDivNat (a : ℚ) (n : ℕ) : ℚ := mkRat a.num (a.den * n)

/-- Scaling by an integer power of ten: the value of a float exponent. -/
def scale10 (v : ℚ) : ℤ → ℚ
  | .ofNat k => ratMul v (ratOfNat (10 ^ k))
  | .negSucc k => ratDivNat v (10 ^ (k + 1))

/-- Mantissa of a float literal: digits with an optional fraction point. -/
def pyMantissa? (cs : List Char) : Option ℚ :=
  match splitOnP (fun d => d == '.') cs with
  | [i] => (pyParseNat? i).map (fun n => ratOfNat n)
  | [i, f] =>
    if (i.all Char.isDigit && f.all Char.isDigit) && (!i.isEmpty || !f.isEmpty) then
      some (ratAdd (ratOfNat (digitsVal i)) (ratDivNat (ratOfNat (digitsVal f)) (10 ^ f.length)))
    else none
  | _ => none

/-- Exponent part of a float literal: optional sign plus digits. -/
def pyExp? (cs : List Char) : Option ℤ :=
  match cs with
  | [] => none
  | c :: rest =>
    if c = '-' then (pyParseNat? rest).map (fun n => -(n : ℤ))
    else if c = '+' then (pyParseNat? rest).map (fun n => (n : ℤ))
    else (pyParseNat? (c :: rest)).map (fun n => (n : ℤ))

/-- Unsigned core of a float literal, with an optional lowercase exponent. -/
def pyFloatCore? (cs : List Char) : Option ℚ :=
  match splitOnP (fun d => d == 'e') cs with
  | [m] => pyMantissa? m
  | [m, ex] => do
    let mv ← pyMantissa? m
    let ev ← pyExp? ex
    pure (scale10 mv ev)
  | _ => none

/-- Models Python `float(s)` on already-stripped input: decimal literals with
optional sign, fraction and lowercase exponent, valued exactly in `ℚ`
(`inf`, `nan`, underscores and uppercase exponents are outside the modelled
fragment). -/
def pyFloat? (s : String) : Option ℚ :=
  match s.data with
  | [] => none
  | c :: cs =>
    if c = '-' then (pyFloatCore? cs).map (fun q => Rat.neg q)
    else if c = '+' then pyFloatCore? cs
    else pyFloatCore? (c :: cs)

/-- The least exponent `e` with `q.den ∣ 10 ^ e`, when one exists; such an
exponent is always at most `q.den`, so the search range is complete. -/
def decExp? (q : ℚ) : Option ℕ :=
  (List.range (q.den + 1)).find? (fun e => decide (q.den ∣ 10 ^ e))

/-- Big-endian digits of `r` left-padded with zeros to width `e`. -/
def zeroPadDigits (e r : ℕ) : List Char :=
  let ds := if r = 0 then ['0'] else (natDigitsAux r r).reverse
  List.replicate (e - ds.length) '0' ++ ds

/-- Decimal rendering of a rational whose denominator divides a power of ten
(the only rationals the modelled `float` parser produces); this is how Python
`str` prints the monitored offsets and thresholds. -/
def ratDecimal (q : ℚ) : String :=
  match decExp? q with
  | some 0 => intDecimal q.num
  | some (e + 1) =>
    let m : ℤ := q.num * ((10 ^ (e + 1) : ℤ) / (q.den : ℤ))
    let a := m.natAbs
    (if m < 0 then "-" else "") ++ natDecimal (a / 10 ^ (e + 1)) ++ "." ++
      (⟨zeroPadDigits (e + 1) (a % 10 ^ (e + 1))⟩ : String)
  | none => "<nondecimal>"

/-- Python `str` / f-string interpolation of an optional string. -/
def pyStrOpt (o : Option String) : String :=
  match o with
  | some s => s
  | none => "None"

/-- Python `str` of an optional integer. -/
def pyStrOptInt (o : Option ℤ) : String :=
  match o with
  | some n => intDecimal n
  | none => "None"

/-- Python `str` of an optional rational (modelled float). -/
def pyStrOptRat (o : Option ℚ) : String :=
  match o with
  | some q => ratDecimal q
  | none => "None"

/-! ## Data model -/

/-- Python exceptions that are visible in the monitor's control flow. -/
inductive PyErr where
  | indexError
  | timeoutExpired
deriving Repr, DecidableEq

/-- Result of `parse_tracking` (the dict built at monitor.py:96). -/
structure TrackingSample where
  leap_status : Option String
  stratum : Option ℤ
  last_offset_sec : Option ℚ
deriving Repr, DecidableEq

/-- Result of `parse_sources` (the dict built at monitor.py:121). -/
structure SourcesSummary where
  has_selected : Bool
  selected_line : Option String
  total_sources : ℕ
deriving Repr, DecidableEq

/-- The fields `parse_gpspipe_output` reads off a decoded JSON object:
`class`, `mode`, `time`, `lat`, `lon`.  A field is `none` when absent. -/
structure GpsObj where
  cls : Option String
  mode : Option ℤ
  time : Option String
  lat : Option ℚ
  lon : Option ℚ
deriving Repr, DecidableEq

/-- Decode oracle standing for `json.loads` plus dictionary access; `none`
models a decode exception. -/
abbrev GpsDecode := String → Option GpsObj

/-- The tuple returned by `parse_gpspipe_output` (monitor.py:153), in source
order: `(has_fix, summary, tpv_count, last_mode)`. -/
structure FixStatus where
  has_fix : Bool
  summary : String
  tpv_count : ℕ
  last_mode : Option ℤ
deriving Repr, DecidableEq

/-- A finished `subprocess.CompletedProcess` as `run_ssh` returns it. -/
structure CompletedProcess where
  returncode : ℤ
  stdout : String
  stderr : String
deriving Repr, DecidableEq

/-- Outcome of one remote call: a completed process, or the
`subprocess.TimeoutExpired` exception. -/
inductive SshOutcome where
  | completed (cp : CompletedProcess)
  | timedOut
deriving Repr, DecidableEq

/-- The remote side as a script: the outcome of the `i`-th SSH invocation of
the process, consumed sequentially. -/
abbrev Script := ℕ → SshOutcome

/-- Executor bookkeeping: the index of the next call in the script and the
trace of `(command, timeout)` pairs issued so far. -/
structure ExecSt where
  next : ℕ
  calls : List (String × ℕ)
deriving Repr, DecidableEq

/-- The configuration the monitor reads from its environment (monitor.py:12-27),
plus the JSON decode oracle. -/
structure Config where
  host : String
  ipFallback : String
  maxStratum : ℤ
  maxAbsOffsetSec : ℚ
  cgpsTimeoutSec : ℕ
  gpspipeSamples : ℕ
  dbUrl : Option String
  decode : GpsDecode

/-- The row `db_insert_sample` inserts (monitor.py:246-262), minus the
server-assigned timestamp. -/
structure MetricRow where
  last_offset_sec : Option ℚ
  stratum : Option ℤ
  total_sources : ℕ
  leap_status : Option String
  gps_mode : String
  selected_source : Option String
  gps_summary : String
deriving Repr, DecidableEq

/-! ## run_ssh (monitor.py:72-92) -/

/-- `run_ssh`: issue the next scripted call, recording it in the trace;
a timeout outcome models the re-raised `subprocess.TimeoutExpired`. -/
def run_ssh (env : Script) (cmd : String) (tmo : ℕ) (st : ExecSt) :
    Except PyErr CompletedProcess × ExecSt :=
  let st2 : ExecSt := ⟨st.next + 1, st.calls ++ [(cmd, tmo)]⟩
  match env st.next with
  | .completed cp => (.ok cp, st2)
  | .timedOut => (.error .timeoutExpired, st2)

/-! ## parse_tracking (monitor.py:95-110) -/

/-- One iteration of the `parse_tracking` loop body.  The `Leap status`
branch has no exception handler, and the `Stratum` branch catches only
`ValueError`, so in both a line whose prefix matches but which contains no
colon raises `IndexError` from the `[1]` subscript; the `Last offset` branch
catches every exception. -/
def trackingStep (st : TrackingSample) (raw : String) : Except PyErr TrackingSample :=
  let line := pyStrip raw
  if pyStartsWith line "Leap status" then
    match pySplit1 ':' line with
    | [_, v] => .ok { st with leap_status := some (pyStrip v) }
    | _ => .error .indexError
  else if pyStartsWith line "Stratum" then
    match pySplit1 ':' line with
    | [_, v] =>
      match pyInt? (pyStrip v) with
      | some n => .ok { st with stratum := some n }
      | none => .ok st
    | _ => .error .indexError
  else if pyStartsWith line "Last offset" then
    match pySplit1 ':' line with
    | [_, v] =>
      match pySplitWs (pyStrip v) with
      | tok :: _ =>
        match pyFloat? tok with
        | some q => .ok { st with last_offset_sec := some q }
        | none => .ok st
      | [] => .ok st
    | _ => .ok st
  else .ok st

/-- Run `trackingStep` over the report lines, propagating a raised exception. -/
def trackingFold (st : TrackingSample) : List String → Except PyErr TrackingSample
  | [] => .ok st
  | l :: ls =>
    match trackingStep st l with
    | .ok st2 => trackingFold st2 ls
    | .error e => .error e

/-- `parse_tracking`. -/
def parse_tracking (text : String) : Except PyErr TrackingSample :=
  trackingFold ⟨none, none, none⟩ (pySplitLines text)

/-! ## parse_sources (monitor.py:112-123) -/

/-- The selection test of monitor.py:119 on a stripped line. -/
def sourceSelectedMark (s : String) : Bool :=
  pyStartsWith s "^*" || pyIn "* " s || pyIn " ^* " s

/-- Lines skipped by `parse_sources`: blank after stripping, or one of the
two header prefixes. -/
def sourceSkip (s : String) : Bool :=
  s == "" || pyStartsWith s "MS" || pyStartsWith s "Name/IP"

/-- One iteration of the `parse_sources` loop body. -/
def sourcesStep (st : SourcesSummary) (raw : String) : SourcesSummary :=
  let s := pyStrip raw
  if sourceSkip s then st
  else
    let st2 : SourcesSummary := { st with total_sources := st.total_sources + 1 }
    if sourceSelectedMark s then { st2 with has_selected := true, selected_line := some s }
    else st2

/-- `parse_sources`. -/
def parse_sources (text : String) : SourcesSummary :=
  (pySplitLines text).foldl sourcesStep ⟨false, none, 0⟩

/-! ## parse_gpspipe_output (monitor.py:153-186) -/

/-- Accumulator of the `parse_gpspipe_output` loop. -/
structure GpsAcc where
  has_fix : Bool
  tpv_count : ℕ
  last_mode : Option ℤ
  last_time : Option String
  last_lat : Option ℚ
  last_lon : Option ℚ
deriving Repr, DecidableEq

/-- Python `new or old` where `new` is an optional string (absent and empty
strings are falsy). -/
def pyOrStr (new old : Option String) : Option String :=
  match new with
  | some s => if s = "" then old else some s
  | none => old

/-- Python `new or old` where `new` is an optional number (absent and zero
are falsy). -/
def pyOrRat (new old : Option ℚ) : Option ℚ :=
  match new with
  | some q => if q = 0 then old else some q
  | none => old

/-- One iteration of the `parse_gpspipe_output` loop body: skip blank lines,
lines not starting with a brace and lines the decoder rejects; on a `TPV`
record bump the count, let the last seen mode win, and remember the latest
truthy time/position. -/
def gpsStep (decode : GpsDecode) (st : GpsAcc) (raw : String) : GpsAcc :=
  let line := pyStrip raw
  if line = "" || !pyStartsWith line "\x7b" then st
  else
    match decode line with
    | none => st
    | some obj =>
      if obj.cls = some "TPV" then
        let st2 : GpsAcc := { st with tpv_count := st.tpv_count + 1 }
        let st3 : GpsAcc :=
          match obj.mode with
          | some m => { st2 with last_mode := some m, has_fix := decide (2 ≤ m) }
          | none => st2
        { st3 with
          last_time := pyOrStr obj.time st3.last_time,
          last_lat := pyOrRat obj.lat st3.last_lat,
          last_lon := pyOrRat obj.lon st3.last_lon }
      else st

/-- Run `gpsStep` over the stream lines. -/
def gpsFold (decode : GpsDecode) (acc : GpsAcc) : List String → GpsAcc
  | [] => acc
  | l :: ls => gpsFold decode (gpsStep decode acc l) ls

/-- The mode names of monitor.py:180. -/
def gpsModeText (m : ℤ) : String :=
  if m = 0 then "Unknown"
  else if m = 1 then "No fix"
  else if m = 2 then "2D fix"
  else if m = 3 then "3D fix"
  else intDecimal m

/-- The summary built at monitor.py:179-186 from the final accumulator. -/
def gpsSummaryOf (st : GpsAcc) : String :=
  match st.last_mode with
  | some m =>
    let parts := ["mode=" ++ gpsModeText m]
    let parts :=
      match st.last_time with
      | some t => if t = "" then parts else parts ++ ["time=" ++ t]
      | none => parts
    let parts :=
      match st.last_lat, st.last_lon with
      | some la, some lo => parts ++ ["pos=(" ++ ratDecimal la ++ "," ++ ratDecimal lo ++ ")"]
      | _, _ => parts
    "GPS(TPV): " ++ pyJoin " | " parts
  | none => ""

/-- `parse_gpspipe_output`. -/
def parse_gpspipe_output (decode : GpsDecode) (text : String) : FixStatus :=
  let st := gpsFold decode ⟨false, 0, none, none, none, none⟩ (pySplitLines text)
  match st.last_mode with
  | some _ => ⟨st.has_fix, gpsSummaryOf st, st.tpv_count, st.last_mode⟩
  | none => ⟨false, "", st.tpv_count, st.last_mode⟩

/-! ## run_gps_status (monitor.py:126-151) -/

/-- The remote command string built at monitor.py:127-135. -/
def gpsRemoteCmd (cfg : Config) : String :=
  let t := natDecimal cfg.cgpsTimeoutSec
  let n := natDecimal cfg.gpspipeSamples
  "bash -lc 'if ! command -v gpspipe >/dev/null 2>&1; then echo gpspipe-not-found >&2; exit 127; fi; " ++
  "if command -v timeout >/dev/null 2>&1; then " ++
  "  timeout " ++ t ++ " gpspipe -w -n " ++ n ++ "; " ++
  "else " ++
  "  gpspipe -w -n " ++ n ++ "; " ++
  "fi'"

/-- `run_gps_status`: one SSH call; its own timeout is caught, a 127 exit or
the not-found marker short-circuits, otherwise the concatenated output is
parsed. -/
def run_gps_status (cfg : Config) (env : Script) (st : ExecSt) :
    (Bool × String) × ExecSt :=
  let r := run_ssh env (gpsRemoteCmd cfg) (cfg.cgpsTimeoutSec + 3) st
  match r.1 with
  | .error _ => ((false, "gpspipe timed out"), r.2)
  | .ok cp =>
    if cp.returncode = 127 || pyIn "gpspipe-not-found" cp.stderr then
      ((false, "gpspipe not found on remote host"), r.2)
    else
      let out := cp.stdout ++ cp.stderr
      let fx := parse_gpspipe_output cfg.decode out
      if fx.summary ≠ "" then ((fx.has_fix, fx.summary), r.2)
      else ((false, if pyHead out ≠ "" then pyHead out else "no TPV data from gpspipe"), r.2)

/-! ## The health evaluation (monitor.py:206-232) -/

/-- Python `abs` on the modelled floats. -/
def pyAbs (q : ℚ) : ℚ := if q < 0 then Rat.neg q else q

/-- The problem list built at monitor.py:206-218, one conditional entry per
check, in source order. -/
def health_problems (cfg : Config) (t : TrackingSample) (s : SourcesSummary)
    (gps_ok : Bool) : List String :=
  (if (match t.leap_status with
       | none => true
       | some l => !pyIn "Normal" l) then
    ["Leap status not Normal (got " ++ pyStrOpt t.leap_status ++ ")"]
  else []) ++
  (if (match t.stratum with
       | none => true
       | some n => decide (cfg.maxStratum < n)) then
    ["Stratum too high (got " ++ pyStrOptInt t.stratum ++ ", max " ++
      intDecimal cfg.maxStratum ++ ")"]
  else []) ++
  (if (match t.last_offset_sec with
       | none => true
       | some q => decide (cfg.maxAbsOffsetSec < pyAbs q)) then
    ["Time offset too large (abs " ++ pyStrOptRat t.last_offset_sec ++ "s > " ++
      ratDecimal cfg.maxAbsOffsetSec ++ "s)"]
  else []) ++
  (if !s.has_selected then ["No selected NTP source in chronyc sources"] else []) ++
  (if s.total_sources = 0 then ["No NTP sources visible in chronyc sources"] else []) ++
  (if !gps_ok then ["GPS has no fix via gpspipe"] else [])

/-- The detail lines built at monitor.py:220-228, always populated. -/
def health_detail (cfg : Config) (t : TrackingSample) (s : SourcesSummary)
    (gps_summary : String) : List String :=
  ["Host: " ++ cfg.host ++ " (" ++ cfg.ipFallback ++ ")",
   "Leap: " ++ pyStrOpt t.leap_status,
   "Stratum: " ++ pyStrOptInt t.stratum,
   "Last offset: " ++ pyStrOptRat t.last_offset_sec ++ " sec",
   "Selected source: " ++ pyStrOpt s.selected_line,
   "Total sources: " ++ natDecimal s.total_sources,
   "GPS: " ++ gps_summary]

/-- Lines 206-232 of `check_ntp_health`: the pure threshold evaluation
producing the `(ok, detail)` verdict. -/
def evaluate_health (cfg : Config) (t : TrackingSample) (s : SourcesSummary)
    (gps_ok : Bool) (gps_summary : String) : Bool × String :=
  let problems := health_problems cfg t s gps_ok
  let detail := health_detail cfg t s gps_summary
  if problems ≠ [] then (false, pyJoin " | " problems ++ " || " ++ pyJoin " | " detail)
  else (true, "OK | " ++ pyJoin " | " detail)

/-! ## check_ntp_health (monitor.py:189-232) -/

/-- `check_ntp_health`: three sequential remote calls; a non-zero exit of the
tracking or sources call returns a transport-failure verdict immediately, a
timeout of either propagates as an exception, while the fix-status call never
aborts the cycle. -/
def check_ntp_health (cfg : Config) (env : Script) (st : ExecSt) :
    Except PyErr (Bool × String) × ExecSt :=
  let tr := run_ssh env "chronyc tracking" 10 st
  match tr.1 with
  | .error e => (.error e, tr.2)
  | .ok cp =>
    if cp.returncode ≠ 0 then
      (.ok (false, "SSH/chronyc tracking failed on " ++ cfg.host ++ " (" ++
        cfg.ipFallback ++ "): " ++ pyHead cp.stderr), tr.2)
    else
      match parse_tracking cp.stdout with
      | .error e => (.error e, tr.2)
      | .ok tracking =>
        let sr := run_ssh env "chronyc sources -n" 10 tr.2
        match sr.1 with
        | .error e => (.error e, sr.2)
        | .ok cp2 =>
          if cp2.returncode ≠ 0 then
            (.ok (false, "SSH/chronyc sources failed on " ++ cfg.host ++ " (" ++
              cfg.ipFallback ++ "): " ++ pyHead cp2.stderr), sr.2)
          else
            let sources := parse_sources cp2.stdout
            let gps := run_gps_status cfg env sr.2
            (.ok (evaluate_health cfg tracking sources gps.1.1 gps.1.2), gps.2)

/-! ## db_insert_sample (monitor.py:235-265) and the persistence pass -/

/-- The VALUES tuple of monitor.py:253-261: the row inserted for one sample.
`gps_mode` is collapsed to two strings, the numeric mode is not a column. -/
def db_row (t : TrackingSample) (s : SourcesSummary) (gps_ok : Bool)
    (gps_summary : String) : MetricRow :=
  ⟨t.last_offset_sec, t.stratum, s.total_sources, t.leap_status,
   if gps_ok then "3D fix" else "No fix", s.selected_line, gps_summary⟩

/-- `db_insert_sample`: skipped entirely without a DATABASE_URL; sink errors
are swallowed, so the insert itself never faults. -/
def db_insert_sample (cfg : Config) (t : TrackingSample) (s : SourcesSummary)
    (gps_ok : Bool) (gps_summary : String) : Option MetricRow :=
  match cfg.dbUrl with
  | none => none
  | some _ => some (db_row t s gps_ok gps_summary)

/-- The healthy-path re-collection of monitor.py:287-292: a second full
command sequence run solely to gather data for persistence.  Any exception in
it (an SSH timeout, or `parse_tracking` raising) escapes to the inner
`except` of monitor.py:293. -/
def persistence_pass (cfg : Config) (env : Script) (st : ExecSt) :
    Except PyErr (Option MetricRow) × ExecSt :=
  let tr := run_ssh env "chronyc tracking" 10 st
  match tr.1 with
  | .error e => (.error e, tr.2)
  | .ok cp =>
    let sr := run_ssh env "chronyc sources -n" 10 tr.2
    match sr.1 with
    | .error e => (.error e, sr.2)
    | .ok cp2 =>
      match parse_tracking cp.stdout with
      | .error e => (.error e, sr.2)
      | .ok tracking =>
        let sources := parse_sources cp2.stdout
        let gps := run_gps_status cfg env sr.2
        (.ok (db_insert_sample cfg tracking sources gps.1.1 gps.1.2), gps.2)

/-! ## The polling loop (monitor.py:280-307) -/

/-- Observable outcome of one cycle of the `while True` loop: the alert
emails sent, the row given to the sink, the fault (if any) caught by the
loop-boundary `except` clauses, and the fault (if any) caught by the inner
`except` around the persistence pass, which only logs. -/
structure CycleOut where
  emails : List (String × String)
  inserted : Option MetricRow
  bodyFault : Option PyErr
  persistFault : Option PyErr
deriving Repr, DecidableEq

/-- The alert email sent by the loop-boundary handlers (monitor.py:298-305). -/
def faultEmail (cfg : Config) (e : PyErr) : String × String :=
  match e with
  | .timeoutExpired =>
    ("NTP health alert timeout",
     "SSH command timed out contacting " ++ cfg.host ++ " (" ++ cfg.ipFallback ++ ")")
  | .indexError =>
    ("NTP health alert exception", "Unexpected error during NTP check: IndexError")

/-- One iteration of the polling loop (monitor.py:281-305). -/
def main_cycle (cfg : Config) (env : Script) (st : ExecSt) : CycleOut × ExecSt :=
  let r := check_ntp_health cfg env st
  match r.1 with
  | .ok (true, _) =>
    let p := persistence_pass cfg env r.2
    match p.1 with
    | .ok row => (⟨[], row, none, none⟩, p.2)
    | .error e => (⟨[], none, none, some e⟩, p.2)
  | .ok (false, detail) =>
    (⟨[("NTP health alert on observium.andrea-house.com", detail ++ "\n")],
      none, none, none⟩, r.2)
  | .error e => (⟨[faultEmail cfg e], none, some e, none⟩, r.2)

/-- The polling loop itself, observed for `n` cycles: every cycle runs to
completion and the loop continues regardless of what the cycle did. -/
def main_loop (cfg : Config) (env : Script) : ℕ → ExecSt → List CycleOut
  | 0, _ => []
  | n + 1, st =>
    let (o, st2) := main_cycle cfg env st
    o :: main_loop cfg env n st2

/-! ## Spec-side reference definitions

These follow the specification's wording, to be compared against the code's
behaviour; they are not translations of the source. -/

/-- The spec's selection rule for a sources row: "its state indicator is a
leading `^*`, or the marker token appearing as an isolated field". -/
def specSelectedMark (s : String) : Bool :=
  pyStartsWith s "^*" || (pySplitWs s).contains "^*"

/-- The stripped data rows of a sources report: non-blank lines that carry
neither header prefix. -/
def sourceDataRows (text : String) : List String :=
  ((pySplitLines text).map pyStrip).filter (fun s => !sourceSkip s)

/-- The stripped candidate lines among a list of raw lines: non-blank and
starting with a brace (the ones handed to the decoder). -/
def gpsKeptOf (lines : List String) : List String :=
  (lines.map pyStrip).filter (fun l => !(l == "") && pyStartsWith l "\x7b")

/-- The decoded fix-report (TPV) records among a list of raw lines. -/
def gpsTPVOf (decode : GpsDecode) (lines : List String) : List GpsObj :=
  ((gpsKeptOf lines).filterMap decode).filter (fun o => o.cls == some "TPV")

/-- The mode values carried by those TPV records, in order. -/
def gpsModesOf (decode : GpsDecode) (lines : List String) : List ℤ :=
  (gpsTPVOf decode lines).filterMap (fun o => o.mode)

/-- The decoded fix-report (TPV) records of a stream, in order. -/
def gpsTPVRecords (decode : GpsDecode) (text : String) : List GpsObj :=
  gpsTPVOf decode (pySplitLines text)

/-- The mode values carried by the TPV records of a stream, in order. -/
def gpsModes (decode : GpsDecode) (text : String) : List ℤ :=
  gpsModesOf decode (pySplitLines text)

/-- Modelled from the spec: re-serialization of recovered tracking fields
into report lines (the repository has no serializer; the round-trip property
of spec section 8 postulates one).  Present fields are printed one per line
in `key : value` form, absent fields produce no line. -/
def serialize_tracking (t : TrackingSample) : String :=
  pyJoin "\n" (
    (match t.leap_status with
     | some l => ["Leap status : " ++ l]
     | none => []) ++
    (match t.stratum with
     | some n => ["Stratum : " ++ intDecimal n]
     | none => []) ++
    (match t.last_offset_sec with
     | some q => ["Last offset : " ++ ratDecimal q ++ " seconds"]
     | none => []))

/-- A recovered tracking sample is canonical when its leap text is already
stripped and single-line and its offset is a finite decimal — exactly the
values the parser itself recovers from a well-formed report. -/
def canonicalSample (t : TrackingSample) : Bool :=
  (match t.leap_status with
   | some l => pyStrip l == l && !l.data.contains '\n'
   | none => true) &&
  (match t.last_offset_sec with
   | some q => (decExp? q).isSome
   | none => true)

/-! ## Concrete fixtures used by witnesses and counterexamples -/

/-- A well-formed tracking report (the shape of spec scenario A). -/
def trackingText0 : String :=
  "Leap status : Normal\nStratum : 2\nLast offset : 0.002 seconds"

/-- A sources report with a header row and one selected data row. -/
def sourcesText0 : String :=
  "MS Name/IP address         Stratum Poll Reach LastRx Last sample\n^* 10.0.0.1 1 4 377 5 +1ms"

/-- A raw line that decodes to a TPV record with mode 3. -/
def tpv3Line : String := "\x7b\"class\":\"TPV\",\"mode\":3\x7d"

/-- A raw line that decodes to a TPV record with mode 2. -/
def tpv2Line : String := "\x7b\"class\":\"TPV\",\"mode\":2\x7d"

/-- A raw line that starts with a brace but fails to decode. -/
def garbageLine : String := "\x7boops"

/-- The concrete decode oracle for the fixtures: the two TPV lines decode,
everything else raises inside `json.loads`. -/
def decode0 : GpsDecode := fun s =>
  if s = tpv3Line then some ⟨some "TPV", some 3, none, none, none⟩
  else if s = tpv2Line then some ⟨some "TPV", some 2, none, none, none⟩
  else none

/-- The concrete configuration (the source defaults of monitor.py:12-20). -/
def cfg0 : Config :=
  ⟨"myntp", "0.0.0.0", 4, mkRat 1 20, 8, 5, some "postgresql://db", decode0⟩

/-- The outcome of a healthy tracking call. -/
def trOut0 : SshOutcome := .completed ⟨0, trackingText0, ""⟩

/-- The outcome of a healthy sources call. -/
def srOut0 : SshOutcome := .completed ⟨0, sourcesText0, ""⟩

/-- The outcome of a healthy fix-status call. -/
def gpsOut0 : SshOutcome := .completed ⟨0, tpv3Line, ""⟩

/-- A fully healthy script: both the evaluation pass and the persistence
pass succeed. -/
def envHealthy : Script := fun n =>
  match n with
  | 0 => trOut0
  | 1 => srOut0
  | 2 => gpsOut0
  | 3 => trOut0
  | 4 => srOut0
  | _ => gpsOut0

/-- A script whose third call (the fix-status stream) times out. -/
def envGpsTimeout : Script := fun n =>
  match n with
  | 0 => trOut0
  | 1 => srOut0
  | _ => .timedOut

/-- A script whose evaluation pass is healthy but whose persistence-pass
tracking call times out. -/
def envPersistTimeout : Script := fun n =>
  match n with
  | 0 => trOut0
  | 1 => srOut0
  | 2 => gpsOut0
  | _ => .timedOut

/-- The initial executor state. -/
def st0 : ExecSt := ⟨0, []⟩

/-- A script whose every call reports the receiver tool missing. -/
def envNotFound : Script := fun _ =>
  .completed ⟨127, "", "bash: line 1: gpspipe-not-found"⟩

/-- A script whose every call times out. -/
def envAllTimeout : Script := fun _ => .timedOut

/-- The three remote calls of one sampling pass, in order, with their
timeouts (monitor.py:191, 198 and 138). -/
def samplerCalls (cfg : Config) : List (String × ℕ) :=
  [("chronyc tracking", 10), ("chronyc sources -n", 10),
   (gpsRemoteCmd cfg, cfg.cgpsTimeoutSec + 3)]

/-! ## General lemmas about the string models -/

theorem splitOnP_ne_nil (p : Char → Bool) (l : List Char) : splitOnP p l ≠ [] := by
  cases l with
  | nil => simp [splitOnP]
  | cons c cs =>
    simp only [splitOnP]
    rcases h : splitOnP p cs with _ | ⟨h1, t1⟩
    · simp
    · by_cases hc : p c <;> simp [hc]

theorem splitOnP_all_not (p : Char → Bool) (l : List Char)
    (h : ∀ c ∈ l, p c = false) : splitOnP p l = [l] := by
  induction l with
  | nil => rfl
  | cons c cs ih =>
    have hc : p c = false := h c (by simp)
    have ih2 := ih (fun d hd => h d (by simp [hd]))
    simp [splitOnP, ih2, hc]

theorem splitOnP_append_sep (p : Char → Bool) (a : List Char) (c : Char)
    (b : List Char) (ha : ∀ d ∈ a, p d = false) (hc : p c = true) :
    splitOnP p (a ++ c :: b) = a :: splitOnP p b := by
  induction a with
  | nil =>
    simp only [List.nil_append, splitOnP]
    rcases h : splitOnP p b with _ | ⟨h1, t1⟩
    · exact absurd h (splitOnP_ne_nil p b)
    · simp [hc]
  | cons d ds ih =>
    have hd : p d = false := ha d (by simp)
    have ih2 := ih (fun x hx => ha x (by simp [hx]))
    simp only [List.cons_append, splitOnP, List.append_eq]
    rw [ih2]
    simp [hd]

theorem joinWith_splitOnP (c : Char) (l : List Char) :
    joinWith [c] (splitOnP (fun d => d == c) l) = l := by
  induction l with
  | nil => rfl
  | cons d ds ih =>
    simp only [splitOnP]
    rcases h : splitOnP (fun d => d == c) ds with _ | ⟨h1, t1⟩
    · exact absurd h (splitOnP_ne_nil _ ds)
    · rw [h] at ih
      by_cases hd : d = c
      · subst hd
        simp only [beq_self_eq_true, if_pos]
        cases t1 with
        | nil => simpa [joinWith] using ih
        | cons x xs => simpa [joinWith] using ih
      · have : (d == c) = false := beq_eq_false_iff_ne.mpr hd
        simp only [this, Bool.false_eq_true, if_false]
        cases t1 with
        | nil => simpa [joinWith] using ih
        | cons x xs => simpa [joinWith] using ih

theorem isPrefixOf_self (l : List Char) : l.isPrefixOf l = true := by
  induction l with
  | nil => rfl
  | cons c cs ih => simp [List.isPrefixOf_cons₂, ih]

theorem isPrefixOf_append_self (a x : List Char) : a.isPrefixOf (a ++ x) = true := by
  induction a with
  | nil => cases x <;> rfl
  | cons c cs ih => simp [List.isPrefixOf_cons₂, ih]

theorem isPrefixOf_trans_append (a b x : List Char) (h : a.isPrefixOf b = true) :
    a.isPrefixOf (b ++ x) = true := by
  induction a generalizing b with
  | nil =>
    cases b with
    | nil => cases x <;> rfl
    | cons d ds => rfl
  | cons c cs ih =>
    cases b with
    | nil => simp [List.isPrefixOf] at h
    | cons d ds =>
      simp only [List.cons_append, List.isPrefixOf_cons₂, Bool.and_eq_true] at h ⊢
      exact ⟨h.1, ih ds h.2⟩

theorem isPrefixOf_cons_mismatch (a b : Char) (as bs : List Char)
    (h : (a == b) = false) : (a :: as).isPrefixOf (b :: bs) = false := by
  simp [List.isPrefixOf_cons₂, h]

theorem listInfix_append_self (x n : List Char) : listInfix n (x ++ n) = true := by
  induction x with
  | nil =>
    cases n with
    | nil => rfl
    | cons c cs => simp [listInfix, isPrefixOf_self]
  | cons c cs ih =>
    simp [listInfix, ih]

theorem string_mk_data (s : String) : (⟨s.data⟩ : String) = s := rfl

theorem string_data_append (a b : String) : (a ++ b).data = a.data ++ b.data := by
  cases a; cases b; rfl

/-- The suffix of a string is an infix of it: the form used to show the
detail text is always contained in a verdict. -/
theorem pyIn_append_left (x n : String) : pyIn n (x ++ n) = true := by
  unfold pyIn
  rw [string_data_append]
  exact listInfix_append_self x.data n.data

/-! ## C1: the health evaluation -/

theorem rat_neg_eq (q : ℚ) : Rat.neg q = -q := rfl

theorem pyAbs_eq_abs (q : ℚ) : pyAbs q = |q| := by
  unfold pyAbs
  rw [rat_neg_eq]
  split
  · exact (abs_of_neg (by assumption)).symm
  · exact (abs_of_nonneg (not_lt.mp (by assumption))).symm

theorem ite_lt_le_flip {α : Type} [LinearOrder α] (a b : α) (x : List String) :
    (if a < b then x else []) = (if b ≤ a then [] else x) := by
  by_cases h : a < b
  · rw [if_pos h, if_neg (not_le.mpr h)]
  · rw [if_neg h, if_pos (not_lt.mp h)]

theorem ite_zero_pos_flip (n : ℕ) (x : List String) :
    (if n = 0 then x else []) = (if 0 < n then [] else x) := by
  cases n <;> simp

theorem ite_bool_flip (b : Bool) (x : List String) :
    (if !b then x else []) = (if b then [] else x) := by
  cases b <;> simp

theorem ite_eq_false_flip (b : Bool) (x : List String) :
    (if b = false then x else []) = (if b = true then [] else x) := by
  cases b <;> simp

theorem evaluate_health_fst (cfg : Config) (t : TrackingSample) (s : SourcesSummary)
    (gok : Bool) (gsum : String) :
    (evaluate_health cfg t s gok gsum).1 = true ↔ health_problems cfg t s gok = [] := by
  by_cases h : health_problems cfg t s gok = [] <;> simp [evaluate_health, h]

theorem health_problems_eq_nil_iff (cfg : Config) (t : TrackingSample)
    (s : SourcesSummary) (gok : Bool) :
    health_problems cfg t s gok = [] ↔
      ((∃ l, t.leap_status = some l ∧ pyIn "Normal" l = true) ∧
       (∃ n, t.stratum = some n ∧ n ≤ cfg.maxStratum) ∧
       (∃ q, t.last_offset_sec = some q ∧ |q| ≤ cfg.maxAbsOffsetSec) ∧
       s.has_selected = true ∧ 0 < s.total_sources ∧ gok = true) := by
  unfold health_problems
  rcases t.leap_status with _ | l <;> rcases t.stratum with _ | n <;>
    rcases t.last_offset_sec with _ | q <;> cases s.has_selected <;> cases gok <;>
    simp [not_lt, Nat.pos_iff_ne_zero, pyAbs_eq_abs]

/-- C1: the health evaluation yields ok exactly when all six conditions hold
(leap non-null and containing the normal token, stratum non-null and within
bound, offset non-null and within bound, a selected source, a positive
source count, a GPS fix); the problem list has exactly one entry per
violated condition in the fixed source order; and the detail text is
contained in the verdict regardless of the outcome. -/
theorem health_evaluator_ok_iff (cfg : Config) (t : TrackingSample)
    (s : SourcesSummary) (gok : Bool) (gsum : String) :
    ((evaluate_health cfg t s gok gsum).1 = true ↔
      ((∃ l, t.leap_status = some l ∧ pyIn "Normal" l = true) ∧
       (∃ n, t.stratum = some n ∧ n ≤ cfg.maxStratum) ∧
       (∃ q, t.last_offset_sec = some q ∧ |q| ≤ cfg.maxAbsOffsetSec) ∧
       s.has_selected = true ∧ 0 < s.total_sources ∧ gok = true)) ∧
    (health_problems cfg t s gok =
      (if t.leap_status.any (fun l => pyIn "Normal" l) then [] else
        ["Leap status not Normal (got " ++ pyStrOpt t.leap_status ++ ")"]) ++
      (if t.stratum.any (fun n => decide (n ≤ cfg.maxStratum)) then [] else
        ["Stratum too high (got " ++ pyStrOptInt t.stratum ++ ", max " ++
          intDecimal cfg.maxStratum ++ ")"]) ++
      (if t.last_offset_sec.any (fun q => decide (|q| ≤ cfg.maxAbsOffsetSec)) then [] else
        ["Time offset too large (abs " ++ pyStrOptRat t.last_offset_sec ++ "s > " ++
          ratDecimal cfg.maxAbsOffsetSec ++ "s)"]) ++
      (if s.has_selected then [] else ["No selected NTP source in chronyc sources"]) ++
      (if 0 < s.total_sources then [] else ["No NTP sources visible in chronyc sources"]) ++
      (if gok then [] else ["GPS has no fix via gpspipe"])) ∧
    pyIn (pyJoin " | " (health_detail cfg t s gsum)) (evaluate_health cfg t s gok gsum).2 = true := by
  refine ⟨(evaluate_health_fst cfg t s gok gsum).trans
      (health_problems_eq_nil_iff cfg t s gok), ?_, ?_⟩
  · unfold health_problems
    rcases t.leap_status with _ | l <;> rcases t.stratum with _ | n <;>
      rcases t.last_offset_sec with _ | q <;>
      cases s.has_selected <;> cases gok <;>
      simp [Option.any, ite_lt_le_flip, ite_zero_pos_flip, ite_bool_flip,
        ite_eq_false_flip, pyAbs_eq_abs]
  · unfold evaluate_health
    by_cases h : health_problems cfg t s gok = [] <;> simp only [h, ne_eq]
    · simp only [not_true_eq_false, if_false]
      exact pyIn_append_left "OK | " (pyJoin " | " (health_detail cfg t s gsum))
    · simp only [not_false_eq_true, if_true]
      exact pyIn_append_left _ (pyJoin " | " (health_detail cfg t s gsum))

/-! ## C2: the tracking parser can raise -/

/-- C2 (refuting evaluation): a line whose recognized key prefix is not
followed by a colon makes `parse_tracking` raise `IndexError` — in the
`Stratum` branch the handler catches only `ValueError`, and the
`Leap status` branch has no handler at all — contradicting the guarantee
that the parser never fails. -/
theorem parse_tracking_raises_on_missing_colon :
    parse_tracking "Stratum" = .error .indexError ∧
    parse_tracking "Leap statusX" = .error .indexError := by
  constructor <;> rfl

/-! ## C6: the sources parser -/

theorem getLast?_cons_form {α : Type} (x : α) (l : List α) :
    (x :: l).getLast? =
      (match l.getLast? with
       | some y => some y
       | none => some x) := by
  cases l with
  | nil => rfl
  | cons a t =>
    rw [List.getLast?_cons_cons]
    cases h : (a :: t).getLast? with
    | some y => rfl
    | none =>
      have : (a :: t) ≠ [] := by simp
      rw [← List.getLast?_isSome] at this
      rw [h] at this
      simp at this

/-- The scan performed by `parse_sources`, characterised over any prefix of
the fold: counted rows, selection flag, and the last selected row kept. -/
theorem sources_foldl_spec (lines : List String) (acc : SourcesSummary) :
    (lines.foldl sourcesStep acc).total_sources
        = acc.total_sources + ((lines.map pyStrip).filter (fun s => !sourceSkip s)).length ∧
    (lines.foldl sourcesStep acc).has_selected
        = (acc.has_selected ||
            ((lines.map pyStrip).filter (fun s => !sourceSkip s)).any sourceSelectedMark) ∧
    (lines.foldl sourcesStep acc).selected_line
        = (match (((lines.map pyStrip).filter (fun s => !sourceSkip s)).filter
              sourceSelectedMark).getLast? with
           | some l => some l
           | none => acc.selected_line) := by
  induction lines generalizing acc with
  | nil => simp
  | cons l ls ih =>
    simp only [List.foldl_cons, List.map_cons, List.filter_cons]
    by_cases hskip : sourceSkip (pyStrip l)
    · have hstep : sourcesStep acc l = acc := by
        simp [sourcesStep, hskip]
      rw [hstep]
      simpa [hskip] using ih acc
    · by_cases hsel : sourceSelectedMark (pyStrip l)
      · have hstep : sourcesStep acc l =
            ⟨true, some (pyStrip l), acc.total_sources + 1⟩ := by
          simp [sourcesStep, hskip, hsel]
        rw [hstep]
        obtain ⟨ih1, ih2, ih3⟩ := ih ⟨true, some (pyStrip l), acc.total_sources + 1⟩
        refine ⟨?_, ?_, ?_⟩
        · rw [ih1]
          simp [hskip]
          omega
        · rw [ih2]
          simp [hskip, hsel]
        · rw [ih3]
          simp only [hskip, Bool.not_false, if_pos, List.filter_cons, hsel, if_true]
          rw [getLast?_cons_form]
          rcases h : (((ls.map pyStrip).filter (fun s => !sourceSkip s)).filter
              sourceSelectedMark).getLast? with _ | y <;> simp
      · have hstep : sourcesStep acc l =
            ⟨acc.has_selected, acc.selected_line, acc.total_sources + 1⟩ := by
          simp [sourcesStep, hskip, hsel]
        rw [hstep]
        obtain ⟨ih1, ih2, ih3⟩ := ih ⟨acc.has_selected, acc.selected_line, acc.total_sources + 1⟩
        refine ⟨?_, ?_, ?_⟩
        · rw [ih1]
          simp [hskip]
          omega
        · rw [ih2]
          simp [hskip, hsel]
        · rw [ih3]
          simp [hskip, hsel]

/-- C6 (counterexample): the row `^+ foo* bar` carries neither a leading
`^*` nor the marker as an isolated field, yet the code marks it selected,
because the code's test accepts the two-character substring `* ` anywhere in
the row. -/
theorem sources_substring_marker_mismatch :
    (parse_sources "^+ foo* bar").has_selected = true ∧
    specSelectedMark "^+ foo* bar" = false ∧
    (parse_sources "^+ foo* bar").total_sources = 1 := by
  refine ⟨by decide, by decide, by decide⟩

/-- C6 (amended): `parse_sources` counts every stripped non-blank
non-header line, marks a line selected exactly by the code's test (leading
`^*`, or the substring `* `, or the substring ` ^* `), keeps the last
selected stripped row, returns zero/false on a report with no data rows,
and returns the stripped text of the unique selected row verbatim when
exactly one row is selected. -/
theorem sources_scan_characterization (text : String) :
    (parse_sources text).total_sources = (sourceDataRows text).length ∧
    (parse_sources text).has_selected = (sourceDataRows text).any sourceSelectedMark ∧
    (parse_sources text).selected_line
      = ((sourceDataRows text).filter sourceSelectedMark).getLast? ∧
    (sourceDataRows text = [] →
      parse_sources text = ⟨false, none, 0⟩) ∧
    (∀ row, (sourceDataRows text).filter sourceSelectedMark = [row] →
      (parse_sources text).selected_line = some row ∧
      (parse_sources text).has_selected = true) := by
  obtain ⟨h1, h2, h3⟩ := sources_foldl_spec (pySplitLines text) ⟨false, none, 0⟩
  have e1 : (parse_sources text).total_sources = (sourceDataRows text).length := by
    show (List.foldl sourcesStep ⟨false, none, 0⟩ (pySplitLines text)).total_sources = _
    rw [h1]
    simp [sourceDataRows]
  have e2 : (parse_sources text).has_selected = (sourceDataRows text).any sourceSelectedMark := by
    show (List.foldl sourcesStep ⟨false, none, 0⟩ (pySplitLines text)).has_selected = _
    rw [h2]
    simp [sourceDataRows]
  have e3 : (parse_sources text).selected_line
      = ((sourceDataRows text).filter sourceSelectedMark).getLast? := by
    show (List.foldl sourcesStep ⟨false, none, 0⟩ (pySplitLines text)).selected_line = _
    rw [h3]
    have hshow : ((sourceDataRows text).filter sourceSelectedMark).getLast?
        = (List.filter sourceSelectedMark
            ((List.map pyStrip (pySplitLines text)).filter (fun s => !sourceSkip s))).getLast? := rfl
    rw [hshow]
    rcases hc : (List.filter sourceSelectedMark
        ((List.map pyStrip (pySplitLines text)).filter (fun s => !sourceSkip s))).getLast?
      with _ | y
    · rfl
    · rfl
  refine ⟨e1, e2, e3, ?_, ?_⟩
  · intro hnil
    have : parse_sources text = ⟨(parse_sources text).has_selected,
        (parse_sources text).selected_line, (parse_sources text).total_sources⟩ := rfl
    rw [this, e1, e2, e3, hnil]
    simp
  · intro row hrow
    constructor
    · rw [e3, hrow]
      rfl
    · rw [e2]
      have hmem : row ∈ (sourceDataRows text).filter sourceSelectedMark := by
        rw [hrow]; simp
      rw [List.mem_filter] at hmem
      exact List.any_eq_true.mpr ⟨row, hmem.1, hmem.2⟩

/-- C6 (witness): on the fixture report with a single selected row, the
characterisation returns that row's stripped text verbatim. -/
theorem sources_scan_witness :
    (sourceDataRows sourcesText0).filter sourceSelectedMark
        = ["^* 10.0.0.1 1 4 377 5 +1ms"] ∧
    (parse_sources sourcesText0).selected_line = some "^* 10.0.0.1 1 4 377 5 +1ms" ∧
    (parse_sources sourcesText0).has_selected = true := by
  have h := (sources_scan_characterization sourcesText0).2.2.2.2
    "^* 10.0.0.1 1 4 377 5 +1ms" (by decide)
  exact ⟨by decide, h.1, h.2⟩

/-! ## C4: the fix-status parser -/

/-- The scan performed by `parse_gpspipe_output`, characterised over any
prefix of the fold: TPV count, last mode seen, and the fix flag following
the last mode. -/
theorem gps_fold_spec (decode : GpsDecode) (lines : List String) (acc : GpsAcc) :
    (gpsFold decode acc lines).tpv_count = acc.tpv_count + (gpsTPVOf decode lines).length ∧
    (gpsFold decode acc lines).last_mode
      = (match (gpsModesOf decode lines).getLast? with
         | some m => some m
         | none => acc.last_mode) ∧
    (gpsFold decode acc lines).has_fix
      = (match (gpsModesOf decode lines).getLast? with
         | some m => decide (2 ≤ m)
         | none => acc.has_fix) := by
  induction lines generalizing acc with
  | nil => simp [gpsFold, gpsTPVOf, gpsModesOf, gpsKeptOf]
  | cons l ls ih =>
    have hfold : gpsFold decode acc (l :: ls) = gpsFold decode (gpsStep decode acc l) ls := rfl
    rw [hfold]
    by_cases hb : pyStrip l = ""
    · have hstep : gpsStep decode acc l = acc := by simp [gpsStep, hb]
      have hkept : gpsTPVOf decode (l :: ls) = gpsTPVOf decode ls := by
        simp [gpsTPVOf, gpsKeptOf, List.filter_cons, hb]
      have hmodes : gpsModesOf decode (l :: ls) = gpsModesOf decode ls := by
        simp [gpsModesOf, hkept]
      rw [hstep, hkept, hmodes]
      exact ih acc
    · by_cases hsw : pyStartsWith (pyStrip l) "\x7b"
      · rcases hdec : decode (pyStrip l) with _ | obj
        · have hstep : gpsStep decode acc l = acc := by
            simp [gpsStep, hb, hsw, hdec]
          have hkept : gpsTPVOf decode (l :: ls) = gpsTPVOf decode ls := by
            simp [gpsTPVOf, gpsKeptOf, List.filter_cons, hb, hsw, List.filterMap_cons, hdec]
          have hmodes : gpsModesOf decode (l :: ls) = gpsModesOf decode ls := by
            simp [gpsModesOf, hkept]
          rw [hstep, hkept, hmodes]
          exact ih acc
        · by_cases hcls : obj.cls = some "TPV"
          · have htpv : gpsTPVOf decode (l :: ls) = obj :: gpsTPVOf decode ls := by
              simp [gpsTPVOf, gpsKeptOf, List.filter_cons, hb, hsw, List.filterMap_cons,
                hdec, hcls]
            rcases hmode : obj.mode with _ | m
            · have hstep : gpsStep decode acc l =
                  { acc with
                      tpv_count := acc.tpv_count + 1
                      last_time := pyOrStr obj.time acc.last_time
                      last_lat := pyOrRat obj.lat acc.last_lat
                      last_lon := pyOrRat obj.lon acc.last_lon } := by
                simp [gpsStep, hb, hsw, hdec, hcls, hmode]
              have hmodes : gpsModesOf decode (l :: ls) = gpsModesOf decode ls := by
                simp [gpsModesOf, htpv, List.filterMap_cons, hmode]
              obtain ⟨ih1, ih2, ih3⟩ := ih
                { acc with
                    tpv_count := acc.tpv_count + 1
                    last_time := pyOrStr obj.time acc.last_time
                    last_lat := pyOrRat obj.lat acc.last_lat
                    last_lon := pyOrRat obj.lon acc.last_lon }
              rw [hstep, hmodes, htpv]
              refine ⟨?_, ih2, ih3⟩
              rw [ih1]
              simp
              omega
            · have hstep : gpsStep decode acc l =
                  ⟨decide (2 ≤ m), acc.tpv_count + 1, some m,
                   pyOrStr obj.time acc.last_time,
                   pyOrRat obj.lat acc.last_lat,
                   pyOrRat obj.lon acc.last_lon⟩ := by
                simp [gpsStep, hb, hsw, hdec, hcls, hmode]
              have hmodes : gpsModesOf decode (l :: ls) = m :: gpsModesOf decode ls := by
                simp [gpsModesOf, htpv, List.filterMap_cons, hmode]
              obtain ⟨ih1, ih2, ih3⟩ := ih ⟨decide (2 ≤ m), acc.tpv_count + 1, some m,
                pyOrStr obj.time acc.last_time,
                pyOrRat obj.lat acc.last_lat,
                pyOrRat obj.lon acc.last_lon⟩
              rw [hstep, hmodes, htpv]
              refine ⟨?_, ?_, ?_⟩
              · rw [ih1]
                simp
                omega
              · rw [ih2, getLast?_cons_form]
                rcases hg : (gpsModesOf decode ls).getLast? with _ | y <;> rfl
              · rw [ih3, getLast?_cons_form]
                rcases hg : (gpsModesOf decode ls).getLast? with _ | y <;> rfl
          · have hstep : gpsStep decode acc l = acc := by
              simp [gpsStep, hb, hsw, hdec, hcls]
            have hkept : gpsTPVOf decode (l :: ls) = gpsTPVOf decode ls := by
              simp [gpsTPVOf, gpsKeptOf, List.filter_cons, hb, hsw, List.filterMap_cons,
                hdec, hcls]
            have hmodes : gpsModesOf decode (l :: ls) = gpsModesOf decode ls := by
              simp [gpsModesOf, hkept]
            rw [hstep, hkept, hmodes]
            exact ih acc
      · have hstep : gpsStep decode acc l = acc := by
          simp [gpsStep, hb, hsw]
        have hkept : gpsTPVOf decode (l :: ls) = gpsTPVOf decode ls := by
          simp [gpsTPVOf, gpsKeptOf, List.filter_cons, hb, hsw]
        have hmodes : gpsModesOf decode (l :: ls) = gpsModesOf decode ls := by
          simp [gpsModesOf, hkept]
        rw [hstep, hkept, hmodes]
        exact ih acc

/-- C4: the fix-status parser skips unparseable lines silently, counts only
TPV records, takes the last mode value seen (not the best) as the final
mode, and reports a fix exactly when that last mode is at least 2; in
particular, a stream whose last well-formed record has mode 3 followed by an
unparseable line yields hasFix and lastMode 3. -/
theorem fix_status_last_mode_wins (decode : GpsDecode) (text : String) :
    (parse_gpspipe_output decode text).tpv_count = (gpsTPVRecords decode text).length ∧
    (parse_gpspipe_output decode text).last_mode = (gpsModes decode text).getLast? ∧
    ((parse_gpspipe_output decode text).has_fix = true ↔
      (∃ m, (gpsModes decode text).getLast? = some m ∧ 2 ≤ m)) ∧
    (∀ (acc : GpsAcc) (raw : String),
      (pyStrip raw = "" ∨ pyStartsWith (pyStrip raw) "\x7b" = false ∨
        decode (pyStrip raw) = none) →
      gpsStep decode acc raw = acc) ∧
    ((parse_gpspipe_output decode0 (tpv3Line ++ "\n" ++ garbageLine)).has_fix = true ∧
     (parse_gpspipe_output decode0 (tpv3Line ++ "\n" ++ garbageLine)).last_mode = some 3) := by
  obtain ⟨h1, h2, h3⟩ := gps_fold_spec decode (pySplitLines text) ⟨false, 0, none, none, none, none⟩
  have hlast : (gpsFold decode ⟨false, 0, none, none, none, none⟩ (pySplitLines text)).last_mode
      = (gpsModes decode text).getLast? := by
    rw [h2]
    rcases hg : (gpsModesOf decode (pySplitLines text)).getLast? with _ | y <;>
      simp [gpsModes, hg]
  have e1 : (parse_gpspipe_output decode text).tpv_count
      = (gpsTPVRecords decode text).length := by
    unfold parse_gpspipe_output
    rcases hm : (gpsFold decode ⟨false, 0, none, none, none, none⟩
        (pySplitLines text)).last_mode with _ | m <;>
      simpa [hm, gpsTPVRecords] using h1
  have e2 : (parse_gpspipe_output decode text).last_mode = (gpsModes decode text).getLast? := by
    unfold parse_gpspipe_output
    rcases hm : (gpsFold decode ⟨false, 0, none, none, none, none⟩
        (pySplitLines text)).last_mode with _ | m
    · simpa [hm] using hlast
    · simpa [hm] using hlast
  have e3 : (parse_gpspipe_output decode text).has_fix = true ↔
      (∃ m, (gpsModes decode text).getLast? = some m ∧ 2 ≤ m) := by
    unfold parse_gpspipe_output
    rcases hm : (gpsFold decode ⟨false, 0, none, none, none, none⟩
        (pySplitLines text)).last_mode with _ | m
    · rw [hm] at hlast
      simp [hm, ← hlast]
    · rw [hm] at hlast
      have hlast2 : (gpsModesOf decode (pySplitLines text)).getLast? = some m := hlast.symm
      have hlast3 : (gpsModes decode text).getLast? = some m := hlast.symm
      simp only [hm, hlast3]
      rw [h3, hlast2]
      simp
  refine ⟨e1, e2, e3, ?_, ?_⟩
  · intro acc raw h
    rcases h with h | h | h
    · simp [gpsStep, h]
    · simp [gpsStep, h]
    · by_cases hb : pyStrip raw = ""
      · simp [gpsStep, hb]
      · by_cases hsw : pyStartsWith (pyStrip raw) "\x7b"
        · simp [gpsStep, hb, hsw, h]
        · simp [gpsStep, hb, hsw]
  · exact ⟨by decide, by decide⟩

/-- C4 (witness): the skip rule at a concrete blank line, and the concrete
mode-3-then-garbage stream. -/
theorem fix_status_last_mode_wins_witness :
    gpsStep decode0 ⟨false, 0, none, none, none, none⟩ "   " = ⟨false, 0, none, none, none, none⟩ ∧
    (parse_gpspipe_output decode0 (tpv3Line ++ "\n" ++ garbageLine)).has_fix = true :=
  ⟨(fix_status_last_mode_wins decode0 "").2.2.2.1 ⟨false, 0, none, none, none, none⟩ "   "
      (Or.inl (by decide)),
   ((fix_status_last_mode_wins decode0 "").2.2.2.2).1⟩

/-! ## C7: the gpspipe-not-found short circuit -/

/-- C7: when the fix-status call completes with exit code 127 or with the
tool-not-found marker on stderr, `run_gps_status` returns hasFix false with
the descriptive not-found summary after exactly that one call, whatever the
command printed on stdout — the parser is never consulted — and no
exception escapes (the result is a plain value). -/
theorem gpspipe_not_found_short_circuit (cfg : Config) (env : Script) (st : ExecSt)
    (cp : CompletedProcess) (henv : env st.next = .completed cp)
    (h : cp.returncode = 127 ∨ pyIn "gpspipe-not-found" cp.stderr = true) :
    run_gps_status cfg env st =
      ((false, "gpspipe not found on remote host"),
       ⟨st.next + 1, st.calls ++ [(gpsRemoteCmd cfg, cfg.cgpsTimeoutSec + 3)]⟩) := by
  unfold run_gps_status run_ssh
  rw [henv]
  rcases h with h | h
  · simp [h]
  · simp [h]

/-- C7 (witness): the short circuit on a concrete exit-127 outcome. -/
theorem gpspipe_not_found_short_circuit_witness :
    run_gps_status cfg0 envNotFound st0 =
      ((false, "gpspipe not found on remote host"),
       ⟨1, [(gpsRemoteCmd cfg0, 11)]⟩) :=
  gpspipe_not_found_short_circuit cfg0 envNotFound st0
    ⟨127, "", "bash: line 1: gpspipe-not-found"⟩ rfl (Or.inl rfl)

/-! ## C10: the persisted gps_mode column -/

/-- C10: the stored `gps_mode` column is exactly "3D fix" when the cycle's
fix status reports a fix and exactly "No fix" otherwise; in particular a
cycle whose last fix record has mode 2 is persisted as "3D fix", and the
numeric mode value itself is never stored in that column. -/
theorem gps_mode_column_collapsed :
    (∀ (t : TrackingSample) (s : SourcesSummary) (gok : Bool) (gsum : String),
      (db_row t s gok gsum).gps_mode = (if gok then "3D fix" else "No fix")) ∧
    (parse_gpspipe_output decode0 (tpv3Line ++ "\n" ++ tpv2Line)).last_mode = some 2 ∧
    (parse_gpspipe_output decode0 (tpv3Line ++ "\n" ++ tpv2Line)).has_fix = true ∧
    (∀ (t : TrackingSample) (s : SourcesSummary) (gsum : String),
      (db_row t s (parse_gpspipe_output decode0 (tpv3Line ++ "\n" ++ tpv2Line)).has_fix
        gsum).gps_mode = "3D fix") := by
  have hfix : (parse_gpspipe_output decode0 (tpv3Line ++ "\n" ++ tpv2Line)).has_fix = true := by
    decide
  refine ⟨fun t s gok gsum => rfl, by decide, hfix, fun t s gsum => ?_⟩
  rw [hfix]
  rfl

/-! ## Evaluation lemmas for the SSH machinery -/

theorem run_ssh_completed (env : Script) (cmd : String) (tmo : ℕ) (st : ExecSt)
    (cp : CompletedProcess) (h : env st.next = .completed cp) :
    run_ssh env cmd tmo st = (.ok cp, ⟨st.next + 1, st.calls ++ [(cmd, tmo)]⟩) := by
  unfold run_ssh
  rw [h]

theorem run_ssh_timeout (env : Script) (cmd : String) (tmo : ℕ) (st : ExecSt)
    (h : env st.next = .timedOut) :
    run_ssh env cmd tmo st = (.error .timeoutExpired, ⟨st.next + 1, st.calls ++ [(cmd, tmo)]⟩) := by
  unfold run_ssh
  rw [h]

/-- `run_gps_status` always consumes exactly one scripted call, whatever the
outcome. -/
theorem run_gps_status_snd (cfg : Config) (env : Script) (st : ExecSt) :
    (run_gps_status cfg env st).2 =
      ⟨st.next + 1, st.calls ++ [(gpsRemoteCmd cfg, cfg.cgpsTimeoutSec + 3)]⟩ := by
  rcases h : env st.next with cp | _
  · simp only [run_gps_status, run_ssh, h]
    split
    · rfl
    · split <;> rfl
  · simp only [run_gps_status, run_ssh, h]

/-- The calls issued by one evaluation pass: between one and three, always
an initial segment of the fixed command sequence. -/
theorem check_calls_general (cfg : Config) (env : Script) (st : ExecSt) :
    ∃ k, 1 ≤ k ∧ k ≤ 3 ∧
      (check_ntp_health cfg env st).2.calls = st.calls ++ (samplerCalls cfg).take k ∧
      (check_ntp_health cfg env st).2.next = st.next + k := by
  rcases h0 : env st.next with cp | _
  · by_cases hrc : cp.returncode = 0
    · rcases hpt : parse_tracking cp.stdout with e | tk
      · refine ⟨1, by omega, by omega, ?_, ?_⟩ <;>
          simp [check_ntp_health, run_ssh, h0, hrc, hpt, samplerCalls]
      · rcases h1 : env (st.next + 1) with cp2 | _
        · by_cases hrc2 : cp2.returncode = 0
          · refine ⟨3, by omega, by omega, ?_, ?_⟩ <;>
              simp [check_ntp_health, run_ssh, h0, hrc, hpt, h1, hrc2,
                run_gps_status_snd, samplerCalls]
          · refine ⟨2, by omega, by omega, ?_, ?_⟩ <;>
              simp [check_ntp_health, run_ssh, h0, hrc, hpt, h1, hrc2, samplerCalls]
        · refine ⟨2, by omega, by omega, ?_, ?_⟩ <;>
            simp [check_ntp_health, run_ssh, h0, hrc, hpt, h1, samplerCalls]
    · refine ⟨1, by omega, by omega, ?_, ?_⟩ <;>
        simp [check_ntp_health, run_ssh, h0, hrc, samplerCalls]
  · refine ⟨1, by omega, by omega, ?_, ?_⟩ <;>
      simp [check_ntp_health, run_ssh, h0, samplerCalls]

/-- The calls issued by one persistence pass: between one and three, always
an initial segment of the same fixed command sequence. -/
theorem persistence_calls_general (cfg : Config) (env : Script) (st : ExecSt) :
    ∃ k, 1 ≤ k ∧ k ≤ 3 ∧
      (persistence_pass cfg env st).2.calls = st.calls ++ (samplerCalls cfg).take k ∧
      (persistence_pass cfg env st).2.next = st.next + k := by
  rcases h0 : env st.next with cp | _
  · rcases h1 : env (st.next + 1) with cp2 | _
    · rcases hpt : parse_tracking cp.stdout with e | tk
      · refine ⟨2, by omega, by omega, ?_, ?_⟩ <;>
          simp [persistence_pass, run_ssh, h0, h1, hpt, samplerCalls]
      · refine ⟨3, by omega, by omega, ?_, ?_⟩ <;>
          simp [persistence_pass, run_ssh, h0, h1, hpt, run_gps_status_snd, samplerCalls]
    · refine ⟨2, by omega, by omega, ?_, ?_⟩ <;>
        simp [persistence_pass, run_ssh, h0, h1, samplerCalls]
  · refine ⟨1, by omega, by omega, ?_, ?_⟩ <;>
      simp [persistence_pass, run_ssh, h0, samplerCalls]

/-! ## C3: transport failures and the cycle -/

/-- C3 (counterexample): a cycle whose fix-status call times out does not
abort — the verdict returned is exactly the health evaluation of the parsed
tracking and sources samples with hasFix false, produced after all three
calls, not a transport failure. -/
theorem gps_timeout_still_evaluates :
    envGpsTimeout 2 = .timedOut ∧
    (check_ntp_health cfg0 envGpsTimeout st0).2.calls = samplerCalls cfg0 ∧
    (check_ntp_health cfg0 envGpsTimeout st0).1 =
      .ok (evaluate_health cfg0 ⟨some "Normal", some 2, some (mkRat 1 500)⟩
        (parse_sources sourcesText0) false "gpspipe timed out") := by
  refine ⟨rfl, by decide, by rfl⟩

/-- C3 (amended): a non-zero exit of the tracking or sources call aborts the
cycle immediately with a transport-failure verdict naming the failing
command and the host, and a timeout of either propagates as an exception
before any further call, so the evaluator is not invoked; failures of the
fix-status call do not abort (see the counterexample). -/
theorem transport_abort_tracking_sources (cfg : Config) (env : Script) (st : ExecSt) :
    (env st.next = .timedOut →
      check_ntp_health cfg env st =
        (.error .timeoutExpired,
         ⟨st.next + 1, st.calls ++ [("chronyc tracking", 10)]⟩)) ∧
    (∀ cp : CompletedProcess, env st.next = .completed cp → cp.returncode ≠ 0 →
      check_ntp_health cfg env st =
        (.ok (false, "SSH/chronyc tracking failed on " ++ cfg.host ++ " (" ++
          cfg.ipFallback ++ "): " ++ pyHead cp.stderr),
         ⟨st.next + 1, st.calls ++ [("chronyc tracking", 10)]⟩)) ∧
    (∀ (cp : CompletedProcess) (tk : TrackingSample),
      env st.next = .completed cp → cp.returncode = 0 →
      parse_tracking cp.stdout = .ok tk → env (st.next + 1) = .timedOut →
      check_ntp_health cfg env st =
        (.error .timeoutExpired,
         ⟨st.next + 2, st.calls ++ [("chronyc tracking", 10), ("chronyc sources -n", 10)]⟩)) ∧
    (∀ (cp cp2 : CompletedProcess) (tk : TrackingSample),
      env st.next = .completed cp → cp.returncode = 0 →
      parse_tracking cp.stdout = .ok tk →
      env (st.next + 1) = .completed cp2 → cp2.returncode ≠ 0 →
      check_ntp_health cfg env st =
        (.ok (false, "SSH/chronyc sources failed on " ++ cfg.host ++ " (" ++
          cfg.ipFallback ++ "): " ++ pyHead cp2.stderr),
         ⟨st.next + 2, st.calls ++ [("chronyc tracking", 10), ("chronyc sources -n", 10)]⟩)) := by
  refine ⟨?_, ?_, ?_, ?_⟩
  · intro h
    simp [check_ntp_health, run_ssh, h]
  · intro cp h hrc
    simp [check_ntp_health, run_ssh, h, hrc]
  · intro cp tk h hrc hpt h1
    simp [check_ntp_health, run_ssh, h, hrc, hpt, h1]
  · intro cp cp2 tk h hrc hpt h1 hrc2
    simp [check_ntp_health, run_ssh, h, hrc, hpt, h1, hrc2]

/-- C3 (witness): the tracking timeout propagates on a concrete script
after exactly one call. -/
theorem transport_abort_witness :
    check_ntp_health cfg0 envAllTimeout st0 =
      (.error .timeoutExpired, ⟨1, [("chronyc tracking", 10)]⟩) :=
  (transport_abort_tracking_sources cfg0 envAllTimeout st0).1 rfl

/-! ## C5: the calls issued per cycle -/

/-- C5 (counterexample): a fully healthy, fault-free cycle issues six remote
calls, not three — the loop re-runs the full command sequence to collect
data for persistence. -/
theorem healthy_cycle_issues_six_calls :
    (main_cycle cfg0 envHealthy st0).2.calls.length = 6 ∧
    (main_cycle cfg0 envHealthy st0).1.emails = [] ∧
    (main_cycle cfg0 envHealthy st0).1.bodyFault = none ∧
    (main_cycle cfg0 envHealthy st0).1.persistFault = none := by
  refine ⟨by decide, by decide, by decide, by decide⟩

/-- C5 (amended): the evaluation pass issues between one and three calls,
always an initial segment of the fixed sequence (tracking, sources,
fix-status, each with its own timeout), exactly three when the tracking and
sources calls succeed; a cycle issues no other calls than the evaluation
pass unless the verdict is healthy, in which case the persistence pass
re-runs the same sequence, for at most six calls per cycle. -/
theorem sampler_call_trace (cfg : Config) (env : Script) :
    (∀ st : ExecSt, ∃ k, 1 ≤ k ∧ k ≤ 3 ∧
      (check_ntp_health cfg env st).2.calls = st.calls ++ (samplerCalls cfg).take k) ∧
    (∀ (st : ExecSt) (cp cp2 : CompletedProcess) (tk : TrackingSample),
      env st.next = .completed cp → cp.returncode = 0 →
      parse_tracking cp.stdout = .ok tk →
      env (st.next + 1) = .completed cp2 → cp2.returncode = 0 →
      (check_ntp_health cfg env st).2.calls = st.calls ++ samplerCalls cfg) ∧
    (∀ (st : ExecSt) (e : PyErr), (check_ntp_health cfg env st).1 = .error e →
      (main_cycle cfg env st).2 = (check_ntp_health cfg env st).2) ∧
    (∀ (st : ExecSt) (detail : String),
      (check_ntp_health cfg env st).1 = .ok (false, detail) →
      (main_cycle cfg env st).2 = (check_ntp_health cfg env st).2) ∧
    (∀ (st : ExecSt) (detail : String),
      (check_ntp_health cfg env st).1 = .ok (true, detail) →
      (main_cycle cfg env st).2 =
        (persistence_pass cfg env (check_ntp_health cfg env st).2).2) ∧
    (∀ st : ExecSt, (main_cycle cfg env st).2.calls.length ≤ st.calls.length + 6) := by
  refine ⟨?_, ?_, ?_, ?_, ?_, ?_⟩
  · intro st
    obtain ⟨k, hk1, hk3, hc, _⟩ := check_calls_general cfg env st
    exact ⟨k, hk1, hk3, hc⟩
  · intro st cp cp2 tk h0 hrc hpt h1 hrc2
    simp [check_ntp_health, run_ssh, h0, hrc, hpt, h1, hrc2, run_gps_status_snd,
      samplerCalls]
  · intro st e hr
    simp [main_cycle, hr]
  · intro st detail hr
    simp [main_cycle, hr]
  · intro st detail hr
    rcases hp : (persistence_pass cfg env (check_ntp_health cfg env st).2).1 with e | row <;>
      simp [main_cycle, hr, hp]
  · intro st
    obtain ⟨k1, _, hk13, hc1, _⟩ := check_calls_general cfg env st
    rcases hr : (check_ntp_health cfg env st).1 with e | ⟨b, detail⟩
    · simp only [main_cycle]
      rw [hr]
      simp [hc1, samplerCalls]
    · cases b
      · simp only [main_cycle]
        rw [hr]
        simp [hc1, samplerCalls]
      · simp only [main_cycle]
        rw [hr]
        obtain ⟨k2, _, hk23, hc2, _⟩ :=
          persistence_calls_general cfg env (check_ntp_health cfg env st).2
        rcases hp : (persistence_pass cfg env (check_ntp_health cfg env st).2).1 with e | row <;>
          simp [hp, hc2, hc1, samplerCalls] <;> omega

/-- C5 (witness): on the healthy script the evaluation pass issues exactly
the three fixed calls. -/
theorem sampler_call_trace_witness :
    (check_ntp_health cfg0 envHealthy st0).2.calls = st0.calls ++ samplerCalls cfg0 :=
  (sampler_call_trace cfg0 envHealthy).2.1 st0 ⟨0, trackingText0, ""⟩ ⟨0, sourcesText0, ""⟩
    ⟨some "Normal", some 2, some (mkRat 1 500)⟩ rfl rfl (by rfl) rfl rfl

/-! ## C8: fault isolation in the polling loop -/

/-- C8 (counterexample): a fault raised inside the cycle — the
persistence-pass tracking call timing out — is caught by the inner handler,
not the loop boundary, and triggers no Notifier call at all. -/
theorem persistence_fault_sends_no_email :
    (main_cycle cfg0 envPersistTimeout st0).1.persistFault = some .timeoutExpired ∧
    (main_cycle cfg0 envPersistTimeout st0).1.emails = [] := by
  refine ⟨by decide, by decide⟩

/-- C8 (amended): the loop runs every cycle to completion whatever the
faults; a fault escaping the cycle body is caught at the loop boundary and
triggers exactly one Notifier call (the timeout or exception alert); a
fault in the healthy-path persistence pass is caught by the inner handler
and only logged, with no Notifier call. -/
theorem loop_fault_isolation (cfg : Config) (env : Script) :
    (∀ (n : ℕ) (st : ExecSt), (main_loop cfg env n st).length = n) ∧
    (∀ (st : ExecSt) (e : PyErr), (check_ntp_health cfg env st).1 = .error e →
      (main_cycle cfg env st).1.emails = [faultEmail cfg e] ∧
      (main_cycle cfg env st).1.bodyFault = some e) ∧
    (∀ (st : ExecSt) (e : PyErr) (detail : String),
      (check_ntp_health cfg env st).1 = .ok (true, detail) →
      (persistence_pass cfg env (check_ntp_health cfg env st).2).1 = .error e →
      (main_cycle cfg env st).1.emails = [] ∧
      (main_cycle cfg env st).1.persistFault = some e) := by
  refine ⟨?_, ?_, ?_⟩
  · intro n
    induction n with
    | zero => intro st; rfl
    | succ m ih =>
      intro st
      simp only [main_loop, List.length_cons]
      rw [ih]
  · intro st e hr
    constructor <;> simp [main_cycle, hr]
  · intro st e detail hr hp
    constructor <;> simp [main_cycle, hr, hp]

/-- C8 (witness): on the all-timeout script the body fault is caught and
produces exactly the timeout alert. -/
theorem loop_fault_isolation_witness :
    (main_cycle cfg0 envAllTimeout st0).1.emails = [faultEmail cfg0 .timeoutExpired] ∧
    (main_cycle cfg0 envAllTimeout st0).1.bodyFault = some .timeoutExpired :=
  (loop_fault_isolation cfg0 envAllTimeout).2.1 st0 .timeoutExpired (by rfl)

/-! ## C9: character-class lemmas for the rendered numbers -/

theorem digit_char_classes (c : Char) (h : c.isDigit = true) :
    c.isWhitespace = false ∧ (c == ':') = false ∧ (c == '.') = false ∧
    (c == 'e') = false ∧ (c == '\n') = false ∧ c ≠ '-' ∧ c ≠ '+' := by
  refine ⟨?_, ?_, ?_, ?_, ?_, ?_, ?_⟩
  · cases hw : c.isWhitespace
    · rfl
    · exfalso
      have hws : ((c = ' ' ∨ c = '\t') ∨ c = '\r') ∨ c = '\n' := by
        simpa [Char.isWhitespace] using hw
      rcases hws with ((h1 | h1) | h1) | h1 <;> subst h1 <;> exact absurd h (by decide)
  · cases hq : c == ':'
    · rfl
    · have : c = ':' := by simpa using hq
      subst this
      exact absurd h (by decide)
  · cases hq : c == '.'
    · rfl
    · have : c = '.' := by simpa using hq
      subst this
      exact absurd h (by decide)
  · cases hq : c == 'e'
    · rfl
    · have : c = 'e' := by simpa using hq
      subst this
      exact absurd h (by decide)
  · cases hq : c == '\n'
    · rfl
    · have : c = '\n' := by simpa using hq
      subst this
      exact absurd h (by decide)
  · intro hq
    subst hq
    exact absurd h (by decide)
  · intro hq
    subst hq
    exact absurd h (by decide)

theorem dropWhile_len_le (p : Char → Bool) (l : List Char) :
    (l.dropWhile p).length ≤ l.length := by
  induction l with
  | nil => simp
  | cons c t ih =>
    rw [List.dropWhile_cons]
    split
    · exact le_trans ih (by simp)
    · simp

theorem dropWhile_of_head (p : Char → Bool) (d : List Char) (hne : d ≠ [])
    (hh : ∀ c, d.head? = some c → p c = false) : d.dropWhile p = d := by
  cases d with
  | nil => rfl
  | cons c t =>
    have : p c = false := hh c rfl
    simp [List.dropWhile_cons, this]

theorem dropWhile_length_eq (p : Char → Bool) (d : List Char)
    (h : (d.dropWhile p).length = d.length) : d.dropWhile p = d := by
  cases d with
  | nil => rfl
  | cons c t =>
    by_cases hc : p c
    · exfalso
      rw [List.dropWhile_cons, if_pos hc] at h
      have := dropWhile_len_le p t
      simp at h
      omega
    · rw [List.dropWhile_cons, if_neg hc]

/-- A string already equal to its own strip has non-whitespace ends. -/
theorem strip_fix_ends (l : String) (h : pyStrip l = l) :
    (∀ c, l.data.head? = some c → c.isWhitespace = false) ∧
    (∀ c, l.data.getLast? = some c → c.isWhitespace = false) := by
  have hd : ((l.data.dropWhile Char.isWhitespace).reverse.dropWhile
      Char.isWhitespace).reverse = l.data := congrArg String.data h
  have hlen1 : (l.data.dropWhile Char.isWhitespace).length = l.data.length := by
    have e1 := congrArg List.length hd
    rw [List.length_reverse] at e1
    have b1 := dropWhile_len_le Char.isWhitespace l.data
    have b2 := dropWhile_len_le Char.isWhitespace
      (l.data.dropWhile Char.isWhitespace).reverse
    rw [List.length_reverse] at b2
    omega
  have hfix1 : l.data.dropWhile Char.isWhitespace = l.data :=
    dropWhile_length_eq _ _ hlen1
  have hlen2 : (l.data.reverse.dropWhile Char.isWhitespace).length
      = l.data.reverse.length := by
    have e1 := congrArg List.length hd
    rw [hfix1, List.length_reverse] at e1
    rw [List.length_reverse]
    exact e1
  have hfix2 : l.data.reverse.dropWhile Char.isWhitespace = l.data.reverse :=
    dropWhile_length_eq _ _ hlen2
  constructor
  · intro c hc
    cases hdata : l.data with
    | nil => simp [hdata] at hc
    | cons a t =>
      rw [hdata] at hc hfix1
      simp at hc
      subst hc
      by_cases hp : a.isWhitespace = true
      · exfalso
        rw [List.dropWhile_cons, if_pos hp] at hfix1
        have := dropWhile_len_le Char.isWhitespace t
        have := congrArg List.length hfix1
        simp at this
        omega
      · simpa using hp
  · intro c hc
    have hc2 : l.data.reverse.head? = some c := by
      rw [List.head?_reverse]
      exact hc
    cases hdata : l.data.reverse with
    | nil => simp [hdata] at hc2
    | cons a t =>
      rw [hdata] at hc2 hfix2
      simp at hc2
      subst hc2
      by_cases hp : a.isWhitespace = true
      · exfalso
        rw [List.dropWhile_cons, if_pos hp] at hfix2
        have := dropWhile_len_le Char.isWhitespace t
        have := congrArg List.length hfix2
        simp at this
        omega
      · simpa using hp

/-- A string with a non-whitespace head and last character is its own strip. -/
theorem pyStrip_of_ends (s : String) (hne : s.data ≠ [])
    (hh : ∀ c, s.data.head? = some c → c.isWhitespace = false)
    (hl : ∀ c, s.data.getLast? = some c → c.isWhitespace = false) :
    pyStrip s = s := by
  unfold pyStrip
  rw [dropWhile_of_head _ _ hne hh]
  rw [dropWhile_of_head _ _ (by simpa using hne)
    (fun c hc => hl c (by rwa [List.head?_reverse] at hc))]
  rw [List.reverse_reverse]

/-! ## C9: the rendered numbers parse back -/

theorem digitVal_digitChar (d : ℕ) (h : d < 10) : digitVal (digitChar d) = d := by
  interval_cases d <;> decide

theorem isDigit_digitChar (d : ℕ) (h : d < 10) : (digitChar d).isDigit = true := by
  interval_cases d <;> decide

theorem natDigitsAux_zero (fuel : ℕ) : natDigitsAux fuel 0 = [] := by
  cases fuel <;> simp [natDigitsAux]

/-- The little-endian digit rendering is non-empty, all digits, and has the
right value. -/
theorem natDigitsAux_spec (fuel : ℕ) : ∀ n, 0 < n → n ≤ fuel →
    natDigitsAux fuel n ≠ [] ∧ (∀ c ∈ natDigitsAux fuel n, c.isDigit = true) ∧
    digitsValLE (natDigitsAux fuel n) = n := by
  induction fuel with
  | zero => intro n h1 h2; omega
  | succ f ih =>
    intro n h1 h2
    have hn : n ≠ 0 := by omega
    rw [natDigitsAux, if_neg hn]
    have hd10 : n % 10 < 10 := Nat.mod_lt n (by omega)
    by_cases hq : n / 10 = 0
    · rw [hq, natDigitsAux_zero]
      refine ⟨by simp, ?_, ?_⟩
      · intro c hc
        simp at hc
        subst hc
        exact isDigit_digitChar _ hd10
      · simp [digitsValLE, digitVal_digitChar _ hd10]
        omega
    · have hle : n / 10 ≤ f := by
        have := Nat.div_lt_self h1 (by omega : 1 < 10)
        omega
      obtain ⟨ih1, ih2, ih3⟩ := ih (n / 10) (by omega) hle
      refine ⟨by simp, ?_, ?_⟩
      · intro c hc
        rcases List.mem_cons.mp hc with hc | hc
        · subst hc
          exact isDigit_digitChar _ hd10
        · exact ih2 c hc
      · simp [digitsValLE, digitVal_digitChar _ hd10, ih3]
        omega

theorem digitsVal_reverse (l : List Char) : digitsVal l.reverse = digitsValLE l := by
  induction l with
  | nil => rfl
  | cons c t ih =>
    rw [List.reverse_cons]
    have hstep : digitsVal (t.reverse ++ [c]) = 10 * digitsVal t.reverse + digitVal c := by
      unfold digitsVal
      rw [List.foldl_append]
      rfl
    rw [hstep, ih]
    simp [digitsValLE]
    omega

/-- The decimal rendering of a natural number is non-empty, all digits, and
parses back to the number. -/
theorem natDecimal_spec (n : ℕ) :
    (natDecimal n).data ≠ [] ∧ (∀ c ∈ (natDecimal n).data, c.isDigit = true) ∧
    pyParseNat? (natDecimal n).data = some n := by
  by_cases h : n = 0
  · subst h
    refine ⟨by decide, by decide, by decide⟩
  · obtain ⟨h1, h2, h3⟩ := natDigitsAux_spec n n (by omega) le_rfl
    have hdata : (natDecimal n).data = (natDigitsAux n n).reverse := by
      unfold natDecimal
      rw [if_neg h]
    rw [hdata]
    refine ⟨by simpa using h1, ?_, ?_⟩
    · intro c hc
      exact h2 c (List.mem_reverse.mp hc)
    · unfold pyParseNat?
      rw [if_pos, digitsVal_reverse, h3]
      rw [Bool.and_eq_true, List.all_eq_true]
      constructor
      · simpa using h1
      · intro c hc
        exact h2 c (List.mem_reverse.mp hc)

/-- The decimal rendering has at most `E` digits when `n < 10 ^ E`. -/
theorem natDigitsAux_len (fuel : ℕ) : ∀ n E, n ≤ fuel → n < 10 ^ E →
    (natDigitsAux fuel n).length ≤ E := by
  induction fuel with
  | zero =>
    intro n E h1 h2
    interval_cases n
    simp [natDigitsAux_zero]
  | succ f ih =>
    intro n E h1 h2
    by_cases hn : n = 0
    · simp [hn, natDigitsAux_zero]
    · rw [natDigitsAux, if_neg hn]
      cases E with
      | zero => simp at h2; omega
      | succ E2 =>
        have hq : n / 10 < 10 ^ E2 := by
          rw [Nat.div_lt_iff_lt_mul (by omega : 0 < 10)]
          calc n < 10 ^ (E2 + 1) := h2
          _ = 10 ^ E2 * 10 := by ring
        have hle : n / 10 ≤ f := by
          have := Nat.div_lt_self (by omega : 0 < n) (by omega : 1 < 10)
          omega
        simpa using ih (n / 10) E2 hle hq

theorem pyInt?_cons (c : Char) (cs : List Char) :
    pyInt? ⟨c :: cs⟩ =
      (if c = '-' then (pyParseNat? cs).map (fun n => -(n : ℤ))
       else if c = '+' then (pyParseNat? cs).map (fun n => (n : ℤ))
       else (pyParseNat? (c :: cs)).map (fun n => (n : ℤ))) := rfl

/-- The rendered integer is non-empty, made of digits and an optional
leading minus sign, and parses back to the integer. -/
theorem intDecimal_spec (i : ℤ) :
    (intDecimal i).data ≠ [] ∧
    (∀ c ∈ (intDecimal i).data, c.isDigit = true ∨ c = '-') ∧
    pyInt? (intDecimal i) = some i := by
  obtain ⟨n1, n2, n3⟩ := natDecimal_spec i.natAbs
  by_cases hneg : i < 0
  · have hdata : (intDecimal i).data = '-' :: (natDecimal i.natAbs).data := by
      unfold intDecimal
      rw [if_pos hneg, string_data_append]
      rfl
    have heq : intDecimal i = ⟨'-' :: (natDecimal i.natAbs).data⟩ := by
      conv_lhs => rw [← string_mk_data (intDecimal i)]
      rw [hdata]
    refine ⟨by simp [hdata], ?_, ?_⟩
    · intro c hc
      rw [hdata] at hc
      rcases List.mem_cons.mp hc with hc | hc
      · exact Or.inr hc
      · exact Or.inl (n2 c hc)
    · rw [heq, pyInt?_cons, if_pos rfl, n3]
      show some (-(i.natAbs : ℤ)) = some i
      have : -(i.natAbs : ℤ) = i := by omega
      rw [this]
  · have hdata : (intDecimal i).data = (natDecimal i.natAbs).data := by
      unfold intDecimal
      rw [if_neg hneg]
    refine ⟨by rw [hdata]; exact n1, ?_, ?_⟩
    · intro c hc
      rw [hdata] at hc
      exact Or.inl (n2 c hc)
    · rcases hdd : (natDecimal i.natAbs).data with _ | ⟨c, cs⟩
      · exact absurd hdd n1
      · have heq : intDecimal i = ⟨c :: cs⟩ := by
          conv_lhs => rw [← string_mk_data (intDecimal i)]
          rw [hdata, hdd]
        have hcdig : c.isDigit = true := n2 c (by rw [hdd]; simp)
        obtain ⟨_, _, _, _, _, hm, hp⟩ := digit_char_classes c hcdig
        rw [heq, pyInt?_cons, if_neg hm, if_neg hp, ← hdd, n3]
        show some ((i.natAbs : ℤ)) = some i
        have : (i.natAbs : ℤ) = i := by omega
        rw [this]

/-- The zero-padded fraction block: exactly `E` digit characters whose value
is `r`. -/
theorem zeroPadDigits_spec (E r : ℕ) (hE : 0 < E) (hr : r < 10 ^ E) :
    (zeroPadDigits E r).length = E ∧
    (∀ c ∈ zeroPadDigits E r, c.isDigit = true) ∧
    digitsVal (zeroPadDigits E r) = r ∧ zeroPadDigits E r ≠ [] := by
  have hzval : ∀ (k : ℕ) (ds : List Char),
      digitsVal (List.replicate k '0' ++ ds) = digitsVal ds := by
    intro k
    induction k with
    | zero => intro ds; simp
    | succ m ih =>
      intro ds
      show digitsVal ('0' :: (List.replicate m '0' ++ ds)) = _
      unfold digitsVal at ih ⊢
      simp only [List.foldl_cons]
      have : (10 * 0 + digitVal '0') = 0 := by decide
      rw [this, ih ds]
  by_cases h0 : r = 0
  · subst h0
    have hds : zeroPadDigits E 0 = List.replicate (E - 1) '0' ++ ['0'] := by
      unfold zeroPadDigits
      simp
    rw [hds]
    refine ⟨?_, ?_, ?_, by simp⟩
    · simp
      omega
    · intro c hc
      rcases List.mem_append.mp hc with hc | hc
      · rw [List.eq_of_mem_replicate hc]
        decide
      · simp at hc
        subst hc
        decide
    · rw [hzval]
      decide
  · obtain ⟨a1, a2, a3⟩ := natDigitsAux_spec r r (by omega) le_rfl
    have hlen : (natDigitsAux r r).length ≤ E := by
      have := natDigitsAux_len r r E le_rfl hr
      simpa using this
    have hds : zeroPadDigits E r
        = List.replicate (E - (natDigitsAux r r).reverse.length) '0' ++
          (natDigitsAux r r).reverse := by
      unfold zeroPadDigits
      rw [if_neg h0]
    rw [hds]
    refine ⟨?_, ?_, ?_, ?_⟩
    · simp
      omega
    · intro c hc
      rcases List.mem_append.mp hc with hc | hc
      · rw [List.eq_of_mem_replicate hc]
        decide
      · exact a2 c (List.mem_reverse.mp hc)
    · rw [hzval, digitsVal_reverse, a3]
    · intro hcon
      have h2 := (List.append_eq_nil.mp hcon).2
      exact a1 (by simpa using h2)

/-! ## C9: the mkRat arithmetic agrees with the field arithmetic -/

theorem rat_den_cast_ne (a : ℚ) : ((a.den : ℚ)) ≠ 0 := by
  exact_mod_cast a.den_nz

theorem rat_num_eq_mul_den (a : ℚ) : (a.num : ℚ) = a * a.den :=
  (div_eq_iff (rat_den_cast_ne a)).mp (Rat.num_div_den a)

theorem ratOfNat_eq (n : ℕ) : ratOfNat n = (n : ℚ) := by
  unfold ratOfNat
  rw [Rat.mkRat_one]
  simp

theorem ratAdd_eq (a b : ℚ) : ratAdd a b = a + b := by
  unfold ratAdd
  rw [Rat.mkRat_eq_div]
  push_cast
  rw [div_eq_iff (mul_ne_zero (rat_den_cast_ne a) (rat_den_cast_ne b))]
  rw [rat_num_eq_mul_den a, rat_num_eq_mul_den b]
  ring

theorem ratMul_eq (a b : ℚ) : ratMul a b = a * b := by
  unfold ratMul
  rw [Rat.mkRat_eq_div]
  push_cast
  rw [div_eq_iff (mul_ne_zero (rat_den_cast_ne a) (rat_den_cast_ne b))]
  rw [rat_num_eq_mul_den a, rat_num_eq_mul_den b]
  ring

theorem ratDivNat_eq (a : ℚ) (n : ℕ) : ratDivNat a n = a / n := by
  unfold ratDivNat
  by_cases hn : n = 0
  · subst hn
    simp [Rat.mkRat_eq_div]
  · rw [Rat.mkRat_eq_div]
    push_cast
    have hq : ((n : ℚ)) ≠ 0 := by exact_mod_cast hn
    rw [div_eq_div_iff (mul_ne_zero (rat_den_cast_ne a) hq) hq]
    rw [rat_num_eq_mul_den a]
    ring

theorem scale10_eq (v : ℚ) (e : ℤ) : scale10 v e = v * (10 : ℚ) ^ e := by
  cases e with
  | ofNat k =>
    show ratMul v (ratOfNat (10 ^ k)) = _
    rw [ratMul_eq, ratOfNat_eq]
    have : ((Int.ofNat k : ℤ)) = (k : ℤ) := rfl
    rw [this, zpow_natCast]
    push_cast
    ring
  | negSucc k =>
    show ratDivNat v (10 ^ (k + 1)) = _
    rw [ratDivNat_eq]
    rw [zpow_negSucc]
    push_cast
    rw [div_eq_mul_inv]

/-! ## C9: the rendered rational parses back -/

theorem find?_decExp (q : ℚ) (e : ℕ) (h : decExp? q = some e) : q.den ∣ 10 ^ e := by
  have := List.find?_some h
  simpa using this

theorem pyFloat?_cons (c : Char) (cs : List Char) :
    pyFloat? ⟨c :: cs⟩ =
      (if c = '-' then (pyFloatCore? cs).map (fun q => Rat.neg q)
       else if c = '+' then pyFloatCore? cs
       else pyFloatCore? (c :: cs)) := rfl

/-- A digit string goes through the exponent-free, fraction-free path. -/
theorem pyFloatCore?_digits (cs : List Char) (hne : cs ≠ [])
    (hd : ∀ c ∈ cs, c.isDigit = true) :
    pyFloatCore? cs = some (ratOfNat (digitsVal cs)) := by
  have hsplit : splitOnP (fun d => d == 'e') cs = [cs] :=
    splitOnP_all_not _ cs (fun c hc => (digit_char_classes c (hd c hc)).2.2.2.1)
  have hsplit2 : splitOnP (fun d => d == '.') cs = [cs] :=
    splitOnP_all_not _ cs (fun c hc => (digit_char_classes c (hd c hc)).2.2.1)
  have hguard : (!cs.isEmpty && cs.all Char.isDigit) = true := by
    rw [Bool.and_eq_true, List.all_eq_true]
    exact ⟨by simpa using hne, fun c hc => hd c hc⟩
  unfold pyFloatCore?
  rw [hsplit]
  show pyMantissa? cs = _
  unfold pyMantissa?
  rw [hsplit2]
  show (pyParseNat? cs).map (fun n => ratOfNat n) = _
  unfold pyParseNat?
  rw [if_pos hguard]
  rfl

/-- A fixed-point string `A.B` with digit blocks parses to the exact value. -/
theorem pyFloatCore?_point (as bs : List Char) (hane : as ≠ [])
    (ha : ∀ c ∈ as, c.isDigit = true) (hb : ∀ c ∈ bs, c.isDigit = true) :
    pyFloatCore? (as ++ '.' :: bs)
      = some (ratAdd (ratOfNat (digitsVal as))
          (ratDivNat (ratOfNat (digitsVal bs)) (10 ^ bs.length))) := by
  have hae : ∀ c ∈ as, (c == 'e') = false :=
    fun c hc => (digit_char_classes c (ha c hc)).2.2.2.1
  have hbe : ∀ c ∈ bs, (c == 'e') = false :=
    fun c hc => (digit_char_classes c (hb c hc)).2.2.2.1
  have hsplit : splitOnP (fun d => d == 'e') (as ++ '.' :: bs) = [as ++ '.' :: bs] := by
    refine splitOnP_all_not _ _ ?_
    intro c hc
    rcases List.mem_append.mp hc with hc | hc
    · exact hae c hc
    · rcases List.mem_cons.mp hc with hc | hc
      · subst hc
        decide
      · exact hbe c hc
  have hdot : splitOnP (fun d => d == '.') (as ++ '.' :: bs) = as :: splitOnP (fun d => d == '.') bs := by
    refine splitOnP_append_sep _ _ _ _ ?_ (by decide)
    intro c hc
    exact (digit_char_classes c (ha c hc)).2.2.1
  have hdot2 : splitOnP (fun d => d == '.') bs = [bs] :=
    splitOnP_all_not _ bs (fun c hc => (digit_char_classes c (hb c hc)).2.2.1)
  have hguard : (as.all Char.isDigit && bs.all Char.isDigit && (!as.isEmpty || !bs.isEmpty)) = true := by
    rw [Bool.and_eq_true, Bool.and_eq_true, List.all_eq_true, List.all_eq_true]
    refine ⟨⟨fun c hc => ha c hc, fun c hc => hb c hc⟩, ?_⟩
    rw [Bool.or_eq_true]
    left
    simpa using hane
  unfold pyFloatCore?
  rw [hsplit]
  show pyMantissa? (as ++ '.' :: bs) = _
  unfold pyMantissa?
  rw [hdot, hdot2]
  show (if (as.all Char.isDigit && bs.all Char.isDigit && (!as.isEmpty || !bs.isEmpty)) = true
      then some (ratAdd (ratOfNat (digitsVal as))
        (ratDivNat (ratOfNat (digitsVal bs)) (10 ^ bs.length)))
      else none) = _
  rw [if_pos hguard]

theorem digitsVal_natDecimal (n : ℕ) : digitsVal (natDecimal n).data = n := by
  obtain ⟨-, -, h3⟩ := natDecimal_spec n
  unfold pyParseNat? at h3
  split at h3
  · simpa using h3
  · simp at h3

theorem rat_eq_num_of_den_one (q : ℚ) (h : q.den = 1) : q = (q.num : ℚ) := by
  conv_lhs => rw [← Rat.num_div_den q]
  rw [h]
  simp

theorem natAbs_cast_q (m : ℤ) (h : 0 ≤ m) : ((m.natAbs : ℚ)) = (m : ℚ) := by
  have h2 : ((m.natAbs : ℤ)) = m := Int.natAbs_of_nonneg h
  conv_rhs => rw [← h2]
  rw [Int.cast_natCast]

theorem natAbs_cast_q_neg (m : ℤ) (h : m < 0) : ((m.natAbs : ℚ)) = -(m : ℚ) := by
  have h2 : ((m.natAbs : ℤ)) = -m := by omega
  have h3 : ((m.natAbs : ℚ)) = (((m.natAbs : ℤ)) : ℚ) := by rw [Int.cast_natCast]
  rw [h3, h2]
  push_cast
  ring

theorem string_mk_data_eq (l : List Char) : (⟨l⟩ : String).data = l := rfl

/-- Parsing a signed fixed-point rendering `[-]A.B` of the integer `m`
scaled down by `10 ^ E` recovers `m / 10 ^ E` exactly, and the rendering is
non-empty and made of digits, a minus sign and a point. -/
theorem decimal_point_parse (m : ℤ) (E : ℕ) (s : String) (hE : 0 < E)
    (hs : s = (if m < 0 then "-" else "") ++ natDecimal (m.natAbs / 10 ^ E) ++ "." ++
      (⟨zeroPadDigits E (m.natAbs % 10 ^ E)⟩ : String)) :
    pyFloat? s = some ((m : ℚ) / (10 : ℚ) ^ E) ∧ s.data ≠ [] ∧
    (∀ c ∈ s.data, c.isDigit = true ∨ c = '-' ∨ c = '.') := by
  have h10 : ((10 : ℚ)) ^ E ≠ 0 := by positivity
  have hrlt : m.natAbs % 10 ^ E < 10 ^ E := Nat.mod_lt _ (by positivity)
  obtain ⟨n1, n2, -⟩ := natDecimal_spec (m.natAbs / 10 ^ E)
  obtain ⟨z1, z2, z3, -⟩ := zeroPadDigits_spec E (m.natAbs % 10 ^ E) hE hrlt
  have hdot : (("." : String)).data = ['.'] := rfl
  have hminus : (("-" : String)).data = ['-'] := rfl
  have hnil : (("" : String)).data = ([] : List Char) := rfl
  have hdata : s.data = (if m < 0 then ['-'] else []) ++
      ((natDecimal (m.natAbs / 10 ^ E)).data ++
        '.' :: zeroPadDigits E (m.natAbs % 10 ^ E)) := by
    rw [hs, string_data_append, string_data_append, string_data_append,
      string_mk_data_eq, hdot]
    by_cases hneg : m < 0
    · rw [if_pos hneg, if_pos hneg, hminus]
      simp
    · rw [if_neg hneg, if_neg hneg, hnil]
      simp
  have key : ((m.natAbs / 10 ^ E : ℕ) : ℚ) * (10 : ℚ) ^ E + ((m.natAbs % 10 ^ E : ℕ) : ℚ)
      = ((m.natAbs : ℚ)) := by
    rw [mul_comm]
    exact_mod_cast Nat.div_add_mod m.natAbs (10 ^ E)
  have hval : ((m.natAbs / 10 ^ E : ℕ) : ℚ)
      + ((m.natAbs % 10 ^ E : ℕ) : ℚ) / (((10 ^ E : ℕ)) : ℚ)
      = ((m.natAbs : ℚ)) / (10 : ℚ) ^ E := by
    have hcast10 : (((10 ^ E : ℕ)) : ℚ) = (10 : ℚ) ^ E := by push_cast; ring
    rw [hcast10, eq_div_iff h10, add_mul, div_mul_cancel₀ _ h10, key]
  have hW : ratAdd (ratOfNat (digitsVal (natDecimal (m.natAbs / 10 ^ E)).data))
      (ratDivNat (ratOfNat (digitsVal (zeroPadDigits E (m.natAbs % 10 ^ E))))
        (10 ^ (zeroPadDigits E (m.natAbs % 10 ^ E)).length))
      = ((m.natAbs : ℚ)) / (10 : ℚ) ^ E := by
    rw [digitsVal_natDecimal, z3, z1, ratAdd_eq, ratOfNat_eq, ratOfNat_eq, ratDivNat_eq]
    exact hval
  have homap : ∀ (x : ℚ),
      Option.map (fun r => Rat.neg r) (some x) = some (Rat.neg x) := fun _ => rfl
  refine ⟨?_, ?_, ?_⟩
  · rcases hdd : (natDecimal (m.natAbs / 10 ^ E)).data with _ | ⟨c, cs⟩
    · exact absurd hdd n1
    by_cases hneg : m < 0
    · have heqS : s = ⟨'-' :: ((c :: cs) ++ '.' :: zeroPadDigits E (m.natAbs % 10 ^ E))⟩ := by
        conv_lhs => rw [← string_mk_data s]
        rw [hdata, if_pos hneg, hdd]
        rfl
      rw [heqS, pyFloat?_cons, if_pos rfl]
      rw [pyFloatCore?_point (c :: cs) _ (by simp)
        (fun d hdm => n2 d (by rw [hdd]; exact hdm)) z2]
      rw [homap, ← hdd, hW]
      rw [rat_neg_eq, natAbs_cast_q_neg m hneg, neg_div, neg_neg]
    · have heqS : s = ⟨c :: (cs ++ '.' :: zeroPadDigits E (m.natAbs % 10 ^ E))⟩ := by
        conv_lhs => rw [← string_mk_data s]
        rw [hdata, if_neg hneg, hdd]
        rfl
      have hcdig : c.isDigit = true := n2 c (by rw [hdd]; simp)
      obtain ⟨-, -, -, -, -, hm', hp'⟩ := digit_char_classes c hcdig
      rw [heqS, pyFloat?_cons, if_neg hm', if_neg hp']
      show pyFloatCore? ((c :: cs) ++ '.' :: zeroPadDigits E (m.natAbs % 10 ^ E))
        = some ((m : ℚ) / (10 : ℚ) ^ E)
      rw [pyFloatCore?_point (c :: cs) _ (by simp)
        (fun d hdm => n2 d (by rw [hdd]; exact hdm)) z2]
      rw [← hdd, hW, natAbs_cast_q m (le_of_not_lt hneg)]
  · rw [hdata]
    by_cases hneg : m < 0
    · rw [if_pos hneg]
      simp
    · rw [if_neg hneg]
      simp
  · intro c hc
    rw [hdata] at hc
    rcases List.mem_append.mp hc with hc | hc
    · by_cases hneg : m < 0
      · rw [if_pos hneg] at hc
        simp at hc
        subst hc
        exact Or.inr (Or.inl rfl)
      · rw [if_neg hneg] at hc
        simp at hc
    · rcases List.mem_append.mp hc with hc | hc
      · exact Or.inl (n2 c hc)
      · rcases List.mem_cons.mp hc with hc | hc
        · subst hc
          exact Or.inr (Or.inr rfl)
        · exact Or.inl (z2 c hc)

/-- Rendering a decimal rational with `str` and parsing it back with `float`
recovers the value exactly; the rendered text is non-empty and uses only
digits, a minus sign and a decimal point. -/
theorem ratDecimal_spec (q : ℚ) (e : ℕ) (h : decExp? q = some e) :
    pyFloat? (ratDecimal q) = some q ∧ (ratDecimal q).data ≠ [] ∧
    (∀ c ∈ (ratDecimal q).data, c.isDigit = true ∨ c = '-' ∨ c = '.') := by
  cases e with
  | zero =>
    have hdvd : q.den ∣ 10 ^ 0 := find?_decExp q 0 h
    have hden : q.den = 1 := by simpa [Nat.dvd_one] using hdvd
    have hq : q = (q.num : ℚ) := rat_eq_num_of_den_one q hden
    have hrd : ratDecimal q = intDecimal q.num := by
      unfold ratDecimal
      rw [h]
    obtain ⟨i1, i2, -⟩ := intDecimal_spec q.num
    obtain ⟨n1, n2, -⟩ := natDecimal_spec q.num.natAbs
    rw [hrd]
    refine ⟨?_, i1, ?_⟩
    · by_cases hneg : q.num < 0
      · have hdata2 : (intDecimal q.num).data = '-' :: (natDecimal q.num.natAbs).data := by
          unfold intDecimal
          rw [if_pos hneg, string_data_append]
          rfl
        have heq : intDecimal q.num = ⟨'-' :: (natDecimal q.num.natAbs).data⟩ := by
          conv_lhs => rw [← string_mk_data (intDecimal q.num)]
          rw [hdata2]
        rw [heq, pyFloat?_cons, if_pos rfl,
          pyFloatCore?_digits _ n1 n2, digitsVal_natDecimal]
        show some (Rat.neg (ratOfNat q.num.natAbs)) = some q
        rw [rat_neg_eq, ratOfNat_eq, natAbs_cast_q_neg q.num hneg, neg_neg, ← hq]
      · have hdata2 : (intDecimal q.num).data = (natDecimal q.num.natAbs).data := by
          unfold intDecimal
          rw [if_neg hneg]
        rcases hdd : (natDecimal q.num.natAbs).data with _ | ⟨c, cs⟩
        · exact absurd hdd n1
        · have heq : intDecimal q.num = ⟨c :: cs⟩ := by
            conv_lhs => rw [← string_mk_data (intDecimal q.num)]
            rw [hdata2, hdd]
          have hcdig : c.isDigit = true := n2 c (by rw [hdd]; simp)
          obtain ⟨-, -, -, -, -, hm', hp'⟩ := digit_char_classes c hcdig
          rw [heq, pyFloat?_cons, if_neg hm', if_neg hp', ← hdd,
            pyFloatCore?_digits _ n1 n2, digitsVal_natDecimal]
          show some (ratOfNat q.num.natAbs) = some q
          rw [ratOfNat_eq, natAbs_cast_q q.num (le_of_not_lt hneg), ← hq]
    · intro c hc
      rcases i2 c hc with hd | hm
      · exact Or.inl hd
      · exact Or.inr (Or.inl hm)
  | succ e2 =>
    have hdvd : q.den ∣ 10 ^ (e2 + 1) := find?_decExp q (e2 + 1) h
    obtain ⟨k, hk⟩ := hdvd
    have hdz : ((q.den : ℤ)) ≠ 0 := by exact_mod_cast q.den_nz
    have hrd : ratDecimal q
        = (if q.num * ((10 ^ (e2 + 1) : ℤ) / (q.den : ℤ)) < 0 then "-" else "")
          ++ natDecimal ((q.num * ((10 ^ (e2 + 1) : ℤ) / (q.den : ℤ))).natAbs / 10 ^ (e2 + 1))
          ++ "." ++
          (⟨zeroPadDigits (e2 + 1)
            ((q.num * ((10 ^ (e2 + 1) : ℤ) / (q.den : ℤ))).natAbs % 10 ^ (e2 + 1))⟩ : String) := by
      unfold ratDecimal
      rw [h]
    obtain ⟨p1, p2, p3⟩ := decimal_point_parse
      (q.num * ((10 ^ (e2 + 1) : ℤ) / (q.den : ℤ))) (e2 + 1) (ratDecimal q)
      (Nat.succ_pos e2) hrd
    refine ⟨?_, p2, p3⟩
    rw [p1]
    have h10 : ((10 : ℚ)) ^ (e2 + 1) ≠ 0 := by positivity
    have hdiv : ((10 ^ (e2 + 1) : ℤ) / (q.den : ℤ)) = (k : ℤ) := by
      have hkz : ((10 : ℤ) ^ (e2 + 1)) = (q.den : ℤ) * (k : ℤ) := by exact_mod_cast hk
      rw [hkz]
      exact Int.mul_ediv_cancel_left _ hdz
    have hm_cast : ((q.num * ((10 ^ (e2 + 1) : ℤ) / (q.den : ℤ)) : ℤ) : ℚ)
        = q * (10 : ℚ) ^ (e2 + 1) := by
      rw [hdiv]
      push_cast
      have hkq : ((10 : ℚ)) ^ (e2 + 1) = (q.den : ℚ) * (k : ℚ) := by exact_mod_cast hk
      rw [hkq, rat_num_eq_mul_den]
      ring
    rw [hm_cast, mul_div_assoc, div_self h10, mul_one]

/-! ## C9: line-level lemmas for the serialized report -/

theorem starts_lit (key pre x : String) (h : key.data.isPrefixOf pre.data = true) :
    pyStartsWith (pre ++ x) key = true := by
  unfold pyStartsWith
  rw [string_data_append]
  exact isPrefixOf_trans_append _ _ _ h

theorem startsWith_false_of_shape (s k : String) (a b : Char) (as bs : List Char)
    (hs : s.data = a :: as) (hk : k.data = b :: bs) (h : (b == a) = false) :
    pyStartsWith s k = false := by
  unfold pyStartsWith
  rw [hs, hk]
  exact isPrefixOf_cons_mismatch b a bs as h

theorem startsWith_false_of_shape2 (s k : String) (a b c d : Char) (as bs : List Char)
    (hs : s.data = a :: b :: as) (hk : k.data = c :: d :: bs)
    (hbd : (d == b) = false) :
    pyStartsWith s k = false := by
  unfold pyStartsWith
  rw [hs, hk, List.isPrefixOf_cons₂, isPrefixOf_cons_mismatch d b bs as hbd]
  simp

theorem pyStrip_of_all_nonws (s : String) (hne : s.data ≠ [])
    (h : ∀ c ∈ s.data, c.isWhitespace = false) : pyStrip s = s := by
  refine pyStrip_of_ends s hne ?_ ?_
  · intro c hc
    cases hd : s.data with
    | nil =>
      rw [hd] at hc
      simp at hc
    | cons a t =>
      rw [hd] at hc
      simp at hc
      subst hc
      exact h a (by rw [hd]; simp)
  · intro c hc
    exact h c (List.mem_of_getLast?_eq_some hc)

theorem pyStrip_space_cons (l : String) (h : pyStrip l = l) :
    pyStrip (⟨' ' :: l.data⟩ : String) = l := by
  unfold pyStrip at h ⊢
  rw [string_mk_data_eq, List.dropWhile_cons, if_pos (by decide)]
  exact h

theorem pySplit1_first (s : String) (a b : List Char)
    (hs : s.data = a ++ ':' :: b) (ha : ∀ d ∈ a, (d == ':') = false) :
    pySplit1 ':' s = [(⟨a⟩ : String), (⟨b⟩ : String)] := by
  have hsp : splitOnP (fun d => d == ':') s.data = a :: splitOnP (fun d => d == ':') b := by
    rw [hs]
    exact splitOnP_append_sep _ a ':' b ha (by decide)
  unfold pySplit1
  rw [hsp]
  rcases hb : splitOnP (fun d => d == ':') b with _ | ⟨h1, t1⟩
  · exact absurd hb (splitOnP_ne_nil _ b)
  · have hj := joinWith_splitOnP ':' b
    rw [hb] at hj
    show [(⟨a⟩ : String), (⟨joinWith [':'] (h1 :: t1)⟩ : String)] = _
    rw [hj]

theorem pySplitWs_token_space (t rest : String) (hne : t.data ≠ [])
    (ht : ∀ c ∈ t.data, c.isWhitespace = false)
    (hrest : ∀ c ∈ rest.data, c.isWhitespace = false) (hrne : rest.data ≠ []) :
    pySplitWs (⟨t.data ++ ' ' :: rest.data⟩ : String) = [t, rest] := by
  have h1 : t.data.isEmpty = false := by
    rcases hd : t.data with _ | ⟨c, cs⟩
    · exact absurd hd hne
    · rfl
  have h2 : rest.data.isEmpty = false := by
    rcases hd : rest.data with _ | ⟨c, cs⟩
    · exact absurd hd hrne
    · rfl
  unfold pySplitWs
  rw [string_mk_data_eq,
    splitOnP_append_sep Char.isWhitespace t.data ' ' rest.data ht (by decide),
    splitOnP_all_not Char.isWhitespace rest.data hrest]
  simp [h1, h2, string_mk_data]

theorem pyJoin_data (sep : String) : ∀ (lines : List String),
    (pyJoin sep lines).data = joinWith sep.data (lines.map String.data)
  | [] => rfl
  | [x] => rfl
  | x :: y :: t => by
    show ((x ++ sep) ++ pyJoin sep (y :: t)).data = _
    rw [string_data_append, string_data_append, pyJoin_data sep (y :: t)]
    rfl

theorem splitOnP_joinWith (p : Char → Bool) (c : Char) (hc : p c = true) :
    ∀ (chunks : List (List Char)), chunks ≠ [] →
    (∀ l ∈ chunks, ∀ d ∈ l, p d = false) →
    splitOnP p (joinWith [c] chunks) = chunks
  | [], h, _ => absurd rfl h
  | [x], _, hx => by
    show splitOnP p x = [x]
    exact splitOnP_all_not p x (hx x (by simp))
  | x :: y :: t, _, hx => by
    show splitOnP p ((x ++ [c]) ++ joinWith [c] (y :: t)) = x :: y :: t
    rw [List.append_assoc]
    show splitOnP p (x ++ c :: joinWith [c] (y :: t)) = x :: y :: t
    rw [splitOnP_append_sep p x c _ (fun d hd => hx x (by simp) d hd) hc,
      splitOnP_joinWith p c hc (y :: t) (by simp) (fun l hl => hx l (by simp [hl]))]

theorem pySplitLines_join (lines : List String)
    (hne : ∀ l ∈ lines, l.data ≠ [])
    (hnl : ∀ l ∈ lines, ∀ c ∈ l.data, (c == '\n') = false) :
    pySplitLines (pyJoin "\n" lines) = lines := by
  cases lines with
  | nil => decide
  | cons x xs =>
    have hsplit : splitOnP (fun c => c == '\n') (pyJoin "\n" (x :: xs)).data
        = (x :: xs).map String.data := by
      rw [pyJoin_data]
      exact splitOnP_joinWith _ '\n' (by decide) _ (by simp)
        (fun l hl d hd => by
          obtain ⟨s, hs, rfl⟩ := List.mem_map.mp hl
          exact hnl s hs d hd)
    have hmm : ((x :: xs).map String.data).map (fun l => (⟨l⟩ : String)) = x :: xs := by
      rw [List.map_map]
      have hcomp : ((fun l => (⟨l⟩ : String)) ∘ String.data) = id := by
        funext s
        exact string_mk_data s
      rw [hcomp, List.map_id]
    have hlast : (x :: xs).getLast? ≠ some "" := by
      intro hcon
      have hy : "" ∈ x :: xs := List.mem_of_getLast?_eq_some hcon
      exact hne "" hy rfl
    simp only [pySplitLines]
    rw [hsplit, hmm, if_neg hlast]

/-- A serialized leap-status line is recovered verbatim by the parser step. -/
theorem trackingStep_leap (st : TrackingSample) (l : String) (hstr : pyStrip l = l) :
    trackingStep st ("Leap status : " ++ l) = .ok { st with leap_status := some l } := by
  by_cases hnil : l.data = []
  · have hl : l = "" := by
      conv_lhs => rw [← string_mk_data l]
      rw [hnil]
    subst hl
    rfl
  · have hdshape : ("Leap status : " ++ l).data
        = 'L' :: ("eap status : ".data ++ l.data) := by
      rw [string_data_append]
      rfl
    have hstrip : pyStrip ("Leap status : " ++ l) = "Leap status : " ++ l := by
      refine pyStrip_of_ends _ ?_ ?_ ?_
      · rw [hdshape]
        simp
      · intro c hc
        rw [hdshape] at hc
        simp at hc
        subst hc
        decide
      · intro c hc
        rw [string_data_append, List.getLast?_append_of_ne_nil _ hnil] at hc
        exact (strip_fix_ends l hstr).2 c hc
    have hstart : pyStartsWith ("Leap status : " ++ l) "Leap status" = true :=
      starts_lit "Leap status" "Leap status : " l (by decide)
    have hsplit : pySplit1 ':' ("Leap status : " ++ l)
        = [(⟨"Leap status ".data⟩ : String), (⟨' ' :: l.data⟩ : String)] :=
      pySplit1_first _ _ _ (by rw [string_data_append]; rfl) (by decide)
    have hv : pyStrip (⟨' ' :: l.data⟩ : String) = l := pyStrip_space_cons l hstr
    simp [trackingStep, hstrip, hstart, hsplit, hv]

/-- A serialized stratum line is recovered exactly by the parser step. -/
theorem trackingStep_stratum (st : TrackingSample) (n : ℤ) :
    trackingStep st ("Stratum : " ++ intDecimal n) = .ok { st with stratum := some n } := by
  obtain ⟨i1, i2, i3⟩ := intDecimal_spec n
  have hnonws : ∀ c ∈ (intDecimal n).data, c.isWhitespace = false := by
    intro c hc
    rcases i2 c hc with hd | hm
    · exact (digit_char_classes c hd).1
    · subst hm
      decide
  have hstripid : pyStrip (intDecimal n) = intDecimal n :=
    pyStrip_of_all_nonws _ i1 hnonws
  have hdshape : ("Stratum : " ++ intDecimal n).data
      = 'S' :: ("tratum : ".data ++ (intDecimal n).data) := by
    rw [string_data_append]
    rfl
  have hstrip : pyStrip ("Stratum : " ++ intDecimal n) = "Stratum : " ++ intDecimal n := by
    refine pyStrip_of_ends _ ?_ ?_ ?_
    · rw [hdshape]
      simp
    · intro c hc
      rw [hdshape] at hc
      simp at hc
      subst hc
      decide
    · intro c hc
      rw [string_data_append, List.getLast?_append_of_ne_nil _ i1] at hc
      exact hnonws c (List.mem_of_getLast?_eq_some hc)
  have hnotleap : pyStartsWith ("Stratum : " ++ intDecimal n) "Leap status" = false :=
    startsWith_false_of_shape _ _ 'S' 'L' _ _ hdshape rfl (by decide)
  have hstart : pyStartsWith ("Stratum : " ++ intDecimal n) "Stratum" = true :=
    starts_lit "Stratum" "Stratum : " _ (by decide)
  have hsplit : pySplit1 ':' ("Stratum : " ++ intDecimal n)
      = [(⟨"Stratum ".data⟩ : String), (⟨' ' :: (intDecimal n).data⟩ : String)] :=
    pySplit1_first _ _ _ (by rw [string_data_append]; rfl) (by decide)
  have hv : pyStrip (⟨' ' :: (intDecimal n).data⟩ : String) = intDecimal n :=
    pyStrip_space_cons _ hstripid
  simp [trackingStep, hstrip, hnotleap, hstart, hsplit, hv, i3]

/-- A serialized offset line is recovered exactly by the parser step. -/
theorem trackingStep_offset (st : TrackingSample) (q : ℚ) (e : ℕ)
    (h : decExp? q = some e) :
    trackingStep st ("Last offset : " ++ ratDecimal q ++ " seconds")
      = .ok { st with last_offset_sec := some q } := by
  obtain ⟨r1, r2, r3⟩ := ratDecimal_spec q e h
  have hnonws : ∀ c ∈ (ratDecimal q).data, c.isWhitespace = false := by
    intro c hc
    rcases r3 c hc with hd | hm | hp
    · exact (digit_char_classes c hd).1
    · subst hm
      decide
    · subst hp
      decide
  have hd2 : ("Last offset : " ++ ratDecimal q ++ " seconds").data
      = 'L' :: 'a' :: ("st offset : ".data ++ ((ratDecimal q).data ++ " seconds".data)) := by
    rw [string_data_append, string_data_append, List.append_assoc]
    rfl
  have hd3 : ("Last offset : " ++ ratDecimal q ++ " seconds").data
      = ("Last offset : ".data ++ (ratDecimal q).data) ++ " seconds".data := by
    rw [string_data_append, string_data_append]
  have hglsec : ((" seconds" : String)).data.getLast? = some 's' := by decide
  have hstrip : pyStrip ("Last offset : " ++ ratDecimal q ++ " seconds")
      = "Last offset : " ++ ratDecimal q ++ " seconds" := by
    refine pyStrip_of_ends _ ?_ ?_ ?_
    · rw [hd2]
      simp
    · intro c hc
      rw [hd2] at hc
      simp at hc
      subst hc
      decide
    · intro c hc
      rw [hd3, List.getLast?_append_of_ne_nil _ (by decide), hglsec] at hc
      simp at hc
      subst hc
      decide
  have hnleap : pyStartsWith ("Last offset : " ++ ratDecimal q ++ " seconds")
      "Leap status" = false :=
    startsWith_false_of_shape2 _ _ 'L' 'a' 'L' 'e' _ _ hd2 rfl (by decide)
  have hnstrat : pyStartsWith ("Last offset : " ++ ratDecimal q ++ " seconds")
      "Stratum" = false :=
    startsWith_false_of_shape _ _ 'L' 'S' _ _ hd2 rfl (by decide)
  have hstart : pyStartsWith ("Last offset : " ++ ratDecimal q ++ " seconds")
      "Last offset" = true := by
    unfold pyStartsWith
    rw [string_data_append, string_data_append]
    apply isPrefixOf_trans_append
    apply isPrefixOf_trans_append
    decide
  have hsplit : pySplit1 ':' ("Last offset : " ++ ratDecimal q ++ " seconds")
      = [(⟨"Last offset ".data⟩ : String),
         (⟨' ' :: ((ratDecimal q).data ++ " seconds".data)⟩ : String)] :=
    pySplit1_first _ _ _
      (by rw [string_data_append, string_data_append, List.append_assoc]; rfl)
      (by decide)
  have hT : pyStrip (ratDecimal q ++ " seconds") = ratDecimal q ++ " seconds" := by
    refine pyStrip_of_ends _ ?_ ?_ ?_
    · intro hcon
      rw [string_data_append] at hcon
      exact r2 (List.append_eq_nil.mp hcon).1
    · intro c hc
      rw [string_data_append] at hc
      rcases hdd : (ratDecimal q).data with _ | ⟨c2, cs⟩
      · exact absurd hdd r2
      · rw [hdd] at hc
        simp at hc
        subst hc
        have hcm : c2 ∈ (ratDecimal q).data := by
          rw [hdd]
          simp
        exact hnonws c2 hcm
    · intro c hc
      rw [string_data_append, List.getLast?_append_of_ne_nil _ (by decide), hglsec] at hc
      simp at hc
      subst hc
      decide
  have hv : pyStrip (⟨' ' :: ((ratDecimal q).data ++ " seconds".data)⟩ : String)
      = ratDecimal q ++ " seconds" := by
    have hTd : (ratDecimal q ++ " seconds").data
        = (ratDecimal q).data ++ " seconds".data := string_data_append _ _
    rw [← hTd]
    exact pyStrip_space_cons _ hT
  have heqT : ratDecimal q ++ " seconds"
      = (⟨(ratDecimal q).data ++ ' ' :: ("seconds" : String).data⟩ : String) := by
    conv_lhs => rw [← string_mk_data (ratDecimal q ++ " seconds")]
    rw [string_data_append]
  have hws : pySplitWs (ratDecimal q ++ " seconds") = [ratDecimal q, "seconds"] := by
    rw [heqT]
    exact pySplitWs_token_space (ratDecimal q) "seconds" r2 hnonws (by decide) (by decide)
  simp [trackingStep, hstrip, hnleap, hnstrat, hstart, hsplit, hv, hws, r1]

theorem no_newline_of_contains_false (l : String)
    (hcont : l.data.contains '\n' = false) :
    ∀ c ∈ l.data, (c == '\n') = false := by
  intro c hc
  cases hcc : (c == '\n') with
  | false => rfl
  | true =>
    exfalso
    have hceq : c = '\n' := eq_of_beq hcc
    subst hceq
    have hmem : l.data.contains '\n' = true := List.elem_eq_true_of_mem hc
    rw [hmem] at hcont
    exact absurd hcont (by decide)

theorem leapLine_facts (l : String) (hnl : ∀ c ∈ l.data, (c == '\n') = false) :
    ("Leap status : " ++ l).data ≠ [] ∧
    ∀ c ∈ ("Leap status : " ++ l).data, (c == '\n') = false := by
  constructor
  · rw [string_data_append]
    intro hcon
    exact absurd (List.append_eq_nil.mp hcon).1 (by decide)
  · intro c hc
    rw [string_data_append] at hc
    rcases List.mem_append.mp hc with hc | hc
    · have hlit : ∀ c ∈ ("Leap status : " : String).data, (c == '\n') = false := by decide
      exact hlit c hc
    · exact hnl c hc

theorem stratumLine_facts (n : ℤ) :
    ("Stratum : " ++ intDecimal n).data ≠ [] ∧
    ∀ c ∈ ("Stratum : " ++ intDecimal n).data, (c == '\n') = false := by
  obtain ⟨-, i2, -⟩ := intDecimal_spec n
  constructor
  · rw [string_data_append]
    intro hcon
    exact absurd (List.append_eq_nil.mp hcon).1 (by decide)
  · intro c hc
    rw [string_data_append] at hc
    rcases List.mem_append.mp hc with hc | hc
    · have hlit : ∀ c ∈ ("Stratum : " : String).data, (c == '\n') = false := by decide
      exact hlit c hc
    · rcases i2 c hc with hd | hm
      · exact (digit_char_classes c hd).2.2.2.2.1
      · subst hm
        decide

theorem offsetLine_facts (q : ℚ) (e : ℕ) (h : decExp? q = some e) :
    ("Last offset : " ++ ratDecimal q ++ " seconds").data ≠ [] ∧
    ∀ c ∈ ("Last offset : " ++ ratDecimal q ++ " seconds").data, (c == '\n') = false := by
  obtain ⟨-, -, r3⟩ := ratDecimal_spec q e h
  constructor
  · rw [string_data_append, string_data_append]
    intro hcon
    have := (List.append_eq_nil.mp hcon).1
    exact absurd (List.append_eq_nil.mp this).1 (by decide)
  · intro c hc
    rw [string_data_append, string_data_append] at hc
    rcases List.mem_append.mp hc with hc | hc
    · rcases List.mem_append.mp hc with hc | hc
      · have hlit : ∀ c ∈ ("Last offset : " : String).data, (c == '\n') = false := by decide
        exact hlit c hc
      · rcases r3 c hc with hd | hm | hp
        · exact (digit_char_classes c hd).2.2.2.2.1
        · subst hm
          decide
        · subst hp
          decide
    · have hlit : ∀ c ∈ ((" seconds" : String)).data, (c == '\n') = false := by decide
      exact hlit c hc

/-- C9: for every canonical recovered tracking sample — leap text stripped and
single-line, offset a finite decimal, exactly the values the Tracking Parser
recovers from a well-formed report — re-serializing the recovered fields into
report lines and re-parsing yields the same sample, with present fields
recovered exactly and absent fields left null; consequently re-parsing a
re-serialized parse result agrees with the original parse. -/
theorem tracking_round_trip (t : TrackingSample) (h : canonicalSample t = true) :
    parse_tracking (serialize_tracking t) = Except.ok t ∧
    ∀ text, parse_tracking text = Except.ok t →
      parse_tracking (serialize_tracking t) = parse_tracking text := by
  have main : parse_tracking (serialize_tracking t) = Except.ok t := by
    obtain ⟨ls, str, off⟩ := t
    rcases ls with _ | l <;> rcases str with _ | n <;> rcases off with _ | q
    · rfl
    · have hh : (true && (decExp? q).isSome) = true := h
      rw [Bool.true_and] at hh
      obtain ⟨e, he⟩ := Option.isSome_iff_exists.mp hh
      have hjoin := pySplitLines_join ["Last offset : " ++ ratDecimal q ++ " seconds"]
        (by
          intro x hx
          simp at hx
          subst hx
          exact (offsetLine_facts q e he).1)
        (by
          intro x hx
          simp at hx
          subst hx
          exact (offsetLine_facts q e he).2)
      have s3 := trackingStep_offset ⟨none, none, none⟩ q e he
      simp [parse_tracking, serialize_tracking, trackingFold, hjoin, s3]
    · have hjoin := pySplitLines_join ["Stratum : " ++ intDecimal n]
        (by
          intro x hx
          simp at hx
          subst hx
          exact (stratumLine_facts n).1)
        (by
          intro x hx
          simp at hx
          subst hx
          exact (stratumLine_facts n).2)
      have s2 := trackingStep_stratum ⟨none, none, none⟩ n
      simp [parse_tracking, serialize_tracking, trackingFold, hjoin, s2]
    · have hh : (true && (decExp? q).isSome) = true := h
      rw [Bool.true_and] at hh
      obtain ⟨e, he⟩ := Option.isSome_iff_exists.mp hh
      have hjoin := pySplitLines_join
        ["Stratum : " ++ intDecimal n, "Last offset : " ++ ratDecimal q ++ " seconds"]
        (by
          intro x hx
          simp at hx
          rcases hx with rfl | rfl
          · exact (stratumLine_facts n).1
          · exact (offsetLine_facts q e he).1)
        (by
          intro x hx
          simp at hx
          rcases hx with rfl | rfl
          · exact (stratumLine_facts n).2
          · exact (offsetLine_facts q e he).2)
      have s2 := trackingStep_stratum ⟨none, none, none⟩ n
      have s3 := trackingStep_offset ⟨none, some n, none⟩ q e he
      simp [parse_tracking, serialize_tracking, trackingFold, hjoin, s2, s3]
    · have hh : ((pyStrip l == l && !l.data.contains '\n') && true) = true := h
      rw [Bool.and_true, Bool.and_eq_true] at hh
      have hstr : pyStrip l = l := eq_of_beq hh.1
      have hnl : ∀ c ∈ l.data, (c == '\n') = false :=
        no_newline_of_contains_false l (by simpa using hh.2)
      have hjoin := pySplitLines_join ["Leap status : " ++ l]
        (by
          intro x hx
          simp at hx
          subst hx
          exact (leapLine_facts l hnl).1)
        (by
          intro x hx
          simp at hx
          subst hx
          exact (leapLine_facts l hnl).2)
      have s1 := trackingStep_leap ⟨none, none, none⟩ l hstr
      simp [parse_tracking, serialize_tracking, trackingFold, hjoin, s1]
    · have hh : ((pyStrip l == l && !l.data.contains '\n') && (decExp? q).isSome) = true := h
      rw [Bool.and_eq_true, Bool.and_eq_true] at hh
      have hstr : pyStrip l = l := eq_of_beq hh.1.1
      have hnl : ∀ c ∈ l.data, (c == '\n') = false :=
        no_newline_of_contains_false l (by simpa using hh.1.2)
      obtain ⟨e, he⟩ := Option.isSome_iff_exists.mp hh.2
      have hjoin := pySplitLines_join
        ["Leap status : " ++ l, "Last offset : " ++ ratDecimal q ++ " seconds"]
        (by
          intro x hx
          simp at hx
          rcases hx with rfl | rfl
          · exact (leapLine_facts l hnl).1
          · exact (offsetLine_facts q e he).1)
        (by
          intro x hx
          simp at hx
          rcases hx with rfl | rfl
          · exact (leapLine_facts l hnl).2
          · exact (offsetLine_facts q e he).2)
      have s1 := trackingStep_leap ⟨none, none, none⟩ l hstr
      have s3 := trackingStep_offset ⟨some l, none, none⟩ q e he
      simp [parse_tracking, serialize_tracking, trackingFold, hjoin, s1, s3]
    · have hh : ((pyStrip l == l && !l.data.contains '\n') && true) = true := h
      rw [Bool.and_true, Bool.and_eq_true] at hh
      have hstr : pyStrip l = l := eq_of_beq hh.1
      have hnl : ∀ c ∈ l.data, (c == '\n') = false :=
        no_newline_of_contains_false l (by simpa using hh.2)
      have hjoin := pySplitLines_join
        ["Leap status : " ++ l, "Stratum : " ++ intDecimal n]
        (by
          intro x hx
          simp at hx
          rcases hx with rfl | rfl
          · exact (leapLine_facts l hnl).1
          · exact (stratumLine_facts n).1)
        (by
          intro x hx
          simp at hx
          rcases hx with rfl | rfl
          · exact (leapLine_facts l hnl).2
          · exact (stratumLine_facts n).2)
      have s1 := trackingStep_leap ⟨none, none, none⟩ l hstr
      have s2 := trackingStep_stratum ⟨some l, none, none⟩ n
      simp [parse_tracking, serialize_tracking, trackingFold, hjoin, s1, s2]
    · have hh : ((pyStrip l == l && !l.data.contains '\n') && (decExp? q).isSome) = true := h
      rw [Bool.and_eq_true, Bool.and_eq_true] at hh
      have hstr : pyStrip l = l := eq_of_beq hh.1.1
      have hnl : ∀ c ∈ l.data, (c == '\n') = false :=
        no_newline_of_contains_false l (by simpa using hh.1.2)
      obtain ⟨e, he⟩ := Option.isSome_iff_exists.mp hh.2
      have hjoin := pySplitLines_join
        ["Leap status : " ++ l, "Stratum : " ++ intDecimal n,
         "Last offset : " ++ ratDecimal q ++ " seconds"]
        (by
          intro x hx
          simp at hx
          rcases hx with rfl | rfl | rfl
          · exact (leapLine_facts l hnl).1
          · exact (stratumLine_facts n).1
          · exact (offsetLine_facts q e he).1)
        (by
          intro x hx
          simp at hx
          rcases hx with rfl | rfl | rfl
          · exact (leapLine_facts l hnl).2
          · exact (stratumLine_facts n).2
          · exact (offsetLine_facts q e he).2)
      have s1 := trackingStep_leap ⟨none, none, none⟩ l hstr
      have s2 := trackingStep_stratum ⟨some l, none, none⟩ n
      have s3 := trackingStep_offset ⟨some l, some n, none⟩ q e he
      simp [parse_tracking, serialize_tracking, trackingFold, hjoin, s1, s2, s3]
  exact ⟨main, fun text ht => by rw [main, ht]⟩

/-- Witness: the concrete sample (leap "Normal", stratum 2, offset 0.002 s)
is canonical and round-trips through serialization and re-parsing. -/
theorem tracking_round_trip_witness :
    canonicalSample ⟨some "Normal", some 2, some (mkRat 1 500)⟩ = true ∧
    parse_tracking (serialize_tracking ⟨some "Normal", some 2, some (mkRat 1 500)⟩)
      = Except.ok ⟨some "Normal", some 2, some (mkRat 1 500)⟩ :=
  ⟨by decide,
   (tracking_round_trip ⟨some "Normal", some 2, some (mkRat 1 500)⟩ (by decide)).1⟩

end NtpChecker
